import Mathlib

/-!
# Verification of the guMCP transport and session multiplexing layer

Shallow embedding of the guMCP gateway (SSE session lifecycle, metrics
gauge updates, plugin discovery, the JSON-RPC line framer of the
`gcalendar` server, the SSE outbound writer, the auth-client factory and
the local credential store), together with proofs and refutations of the
frozen specification claims.

Conventions:
* JavaScript `Map`s become association lists, gauges become functions
  from label to `Int`.
* JavaScript values reaching `JSON.parse` / property access are modelled
  by a small JSON value type; `undefined` is `Option.none` at the points
  where the source distinguishes it.
* Fallible operations return `Except` or `Option`.
-/

namespace GuMCP

/-! ## Gateway session state (src/unnamed/part_000)

State touched by the SSE route handler: the instance map
`userServerInstances`, the transport map `userSessionTransports`
(each transport carrying its inbound message queue), the per-plugin
`activeConnections` gauge and `connectionTotal` counter.  Server
instances are identified by the order of their construction
(`nextInst` plays the role of object identity). -/

/-- A JSON-like value as produced by `JSON.parse` and posted as a request
body (String-keyed variant used by the gateway and the framer). -/
inductive FVal where
  | null : FVal
  | boolean : Bool → FVal
  | num : Int → FVal
  | str : String → FVal
  | arr : List FVal → FVal
  | obj : List (String × FVal) → FVal

/-- State of the remote gateway process: the maps and metrics declared at
module scope in the source. A transport map entry holds the inbound
message queue of its `messageEmitter`. -/
structure GwState where
  instances : List (String × Nat)
  transports : List (String × List FVal)
  gauge : String → Int
  connTotal : String → Int
  nextInst : Nat

/-- Association list lookup, the model of `Map.get`. -/
def mapGet {α : Type} (m : List (String × α)) (k : String) : Option α :=
  match m with
  | [] => none
  | (k₁, v) :: rest => if k₁ = k then some v else mapGet rest k

/-- Association list update, the model of `Map.set` (replaces an existing
binding, otherwise appends). -/
def mapSet {α : Type} (m : List (String × α)) (k : String) (v : α) : List (String × α) :=
  match m with
  | [] => [(k, v)]
  | (k₁, v₁) :: rest => if k₁ = k then (k₁, v) :: rest else (k₁, v₁) :: mapSet rest k v

/-- Association list removal, the model of `Map.delete`. -/
def mapDel {α : Type} (m : List (String × α)) (k : String) : List (String × α) :=
  match m with
  | [] => []
  | (k₁, v₁) :: rest => if k₁ = k then mapDel rest k else (k₁, v₁) :: mapDel rest k

/-- Pointwise bump of a labelled counter or gauge. -/
def bump (f : String → Int) (label : String) (d : Int) : String → Int :=
  fun l => if l = label then f l + d else f l

/-- The get-or-create block of the SSE route handler (part_000 lines
296 to 307): look up `sessionKey` in `userServerInstances`; on a miss
construct a fresh instance via the plugin factory, store it and increment
the `activeConnections` gauge for `serverName`; always increment
`connectionTotal`.  Returns the instance identity and whether it is new. -/
def getOrCreateInstance (st : GwState) (serverName sessionKey : String) :
    Nat × Bool × GwState :=
  match mapGet st.instances sessionKey with
  | some inst =>
      (inst, false,
        { st with connTotal := bump st.connTotal serverName 1 })
  | none =>
      (st.nextInst, true,
        { st with
            instances := mapSet st.instances sessionKey st.nextInst
            nextInst := st.nextInst + 1
            gauge := bump st.gauge serverName 1
            connTotal := bump st.connTotal serverName 1 })

/-- Registration of the SSE transport (part_000 line 347):
`userSessionTransports.set(sessionKey, ...)` with a fresh (empty) inbound
message queue. -/
def attachTransport (st : GwState) (sessionKey : String) : GwState :=
  { st with transports := mapSet st.transports sessionKey [] }

/-- The whole connection phase of the SSE route: get-or-create the
instance, then register the transport. -/
def sseConnect (st : GwState) (serverName sessionKey : String) : GwState :=
  attachTransport (getOrCreateInstance st serverName sessionKey).2.2 sessionKey

/-- The `request.raw.on('close')` handler (part_000 lines 351 to 366):
unconditionally delete the transport map entry and decrement the
`activeConnections` gauge. -/
def onCloseEvent (st : GwState) (serverName sessionKey : String) : GwState :=
  { st with
      transports := mapDel st.transports sessionKey
      gauge := bump st.gauge serverName (-1) }

/-- The `finally` block of the SSE route handler (part_000 lines 390 to
398): delete the transport entry and decrement the gauge only when the
entry is still present. -/
def onFinallyBlock (st : GwState) (serverName sessionKey : String) : GwState :=
  if (mapGet st.transports sessionKey).isSome then
    { st with
        transports := mapDel st.transports sessionKey
        gauge := bump st.gauge serverName (-1) }
  else st

/-- The message-post route handler (part_000 lines 403 to 422): resolve
the transport for `serverName:sessionKeyEncoded`; absent gives a 404 and
no state change; present enqueues the body on the transport inbound
queue and answers 202. -/
def postMessage (st : GwState) (serverName sessionKeyEncoded : String) (body : FVal) :
    Nat × GwState :=
  let sessionKey := serverName ++ ":" ++ sessionKeyEncoded
  match mapGet st.transports sessionKey with
  | none => (404, st)
  | some queue =>
      (202, { st with transports := mapSet st.transports sessionKey (queue ++ [body]) })

/-- The empty gateway state at process start. -/
def initGw : GwState :=
  { instances := [], transports := [], gauge := fun _ => 0,
    connTotal := fun _ => 0, nextInst := 0 }

/-! ## Plugin discovery (src/unnamed/part_000, lines 86 to 147) -/

/-- Result of JavaScript `typeof` on a module export, as far as the
shape checks of `loadServerModule` distinguish it. -/
inductive JsType where
  | undef : JsType
  | func : JsType
  | object : JsType
  | primitive : JsType
deriving DecidableEq, Repr

/-- The shape of a loaded module: the `typeof` of its `server` and
`getInitializationOptions` exports. -/
structure ModuleShape where
  serverTy : JsType
  getInitTy : JsType
deriving DecidableEq, Repr

/-- A directory entry seen by `discoverAndLoadServers`, together with the
facts about it the loader consults: whether its entry file exists and the
outcome of the dynamic import (`none` models a throwing import). -/
structure DirEntry where
  name : String
  isDirectory : Bool
  hasMainFile : Bool
  importResult : Option ModuleShape
deriving DecidableEq, Repr

/-- The cached information kept per plugin (`ServerInfo`): the validated
module shape. -/
structure ServerInfo where
  shape : ModuleShape
deriving DecidableEq, Repr

/-- `loadServerModule` (part_000 lines 86 to 117): missing entry file
gives a warning and `null`; a throwing import, or a module whose `server`
export is neither a function nor an object, or whose
`getInitializationOptions` export is not a function, is caught, logged
and gives `null`; otherwise the module is returned. -/
def loadServerModule (e : DirEntry) : Option ServerInfo :=
  if ¬ e.hasMainFile then none
  else
    match e.importResult with
    | none => none
    | some m =>
        if m.serverTy ≠ JsType.func ∧ m.serverTy ≠ JsType.object then none
        else if m.getInitTy ≠ JsType.func then none
        else some ⟨m⟩

/-- `discoverAndLoadServers` (part_000 lines 119 to 147): walk the
directory entries in order; for each directory attempt
`loadServerModule`; on success add it to the map, on failure skip it and
continue with the remaining siblings. -/
def discoverAndLoadServers (entries : List DirEntry) : List (String × ServerInfo) :=
  entries.foldl
    (fun acc e =>
      if e.isDirectory then
        match loadServerModule e with
        | some info => mapSet acc e.name info
        | none => acc
      else acc)
    []

/-- A directory entry that passes both the file-existence check and the
export shape check. -/
def validPlugin (e : DirEntry) : Bool :=
  e.isDirectory && e.hasMainFile &&
    match e.importResult with
    | none => false
    | some m =>
        (m.serverTy == JsType.func || m.serverTy == JsType.object) && m.getInitTy == JsType.func

/-! ## Auth client factory (src/unnamed/part_001) -/

/-- The client returned by `createAuthClient`: either an instance of the
caller-supplied constructor (identified by a tag), a `GumloopAuthClient`
carrying its api key, or a `LocalAuthClient`. -/
inductive AuthClientR where
  | constructed : Nat → AuthClientR
  | gumloop : Option String → AuthClientR
  | localClient : AuthClientR
deriving DecidableEq, Repr

/-- The `toLowerCase()` call, modelled character by character. -/
def lowerStr (s : String) : String := String.mk (s.data.map Char.toLower)

/-- The expression `process.env.ENVIRONMENT || "local"`: an unset or
empty (falsy) variable falls back to `"local"`. -/
def envString (envVar : Option String) : String :=
  match envVar with
  | none => "local"
  | some s => if s = "" then "local" else s

/-- The expression `apiKey || undefined` used when constructing the
Gumloop client: a null or empty api key becomes undefined. -/
def normApiKey (apiKey : Option String) : Option String :=
  match apiKey with
  | none => none
  | some s => if s = "" then none else some s

/-- Translation of `createAuthClient` (part_001 lines 5 to 25): a
provided `clientType` is constructed and returned; otherwise the
lowercased `ENVIRONMENT` variable selects the Gumloop client, and every
remaining path returns a `LocalAuthClient`.  The trailing
`throw new Error("Client type not provided.")` of the source stands
after an unconditional `return` statement; see `trailingThrow`. -/
def createAuthClient (clientType : Option Nat) (apiKey : Option String)
    (envVar : Option String) : Except String AuthClientR :=
  match clientType with
  | some t => Except.ok (AuthClientR.constructed t)
  | none =>
      let environment := lowerStr (envString envVar)
      if environment = "gumloop" then Except.ok (AuthClientR.gumloop (normApiKey apiKey))
      else Except.ok AuthClientR.localClient

/-- The value the trailing `throw` of `createAuthClient` would produce if
control ever reached it. -/
def trailingThrow : Except String AuthClientR :=
  Except.error "Client type not provided."

/-! ## JSON-RPC line framer (src/src/servers/gcalendar/main.ts)

The `readStream.on('data')` handler of `Server.run` (lines 206 to 252)
splits the buffered input into lines; each trimmed non-empty line is
parsed as JSON, validated (`jsonrpc === "2.0"` and a truthy `method`),
dispatched through `Server.handleRequest` (lines 150 to 198) and the
response, when there is one, is written as one frame.  A line is
modelled by the outcome of `JSON.parse` on it. -/

/-- Lookup of an own property on a parsed JSON object; `none` models
JavaScript `undefined`. -/
def objGet (kvs : List (String × FVal)) (k : String) : Option FVal :=
  match kvs with
  | [] => none
  | (k₁, v) :: rest => if k₁ = k then some v else objGet rest k

/-- JavaScript truthiness of a possibly-undefined value: `undefined`,
`null`, `false`, `0` and the empty string are falsy; every other value
(arrays and objects included) is truthy. -/
def truthy (v : Option FVal) : Bool :=
  match v with
  | none => false
  | some FVal.null => false
  | some (FVal.boolean b) => b
  | some (FVal.num n) => n != 0
  | some (FVal.str s) => s != ""
  | some (FVal.arr _) => true
  | some (FVal.obj _) => true

/-- Template-literal conversion of the `method` value used in the
`Method not found: ${method}` message. -/
def jsToStr (v : FVal) : String :=
  match v with
  | FVal.null => "null"
  | FVal.boolean b => if b then "true" else "false"
  | FVal.num n => toString n
  | FVal.str s => s
  | FVal.arr _ => ""
  | FVal.obj _ => "[object Object]"

/-- One outbound response frame: the serialized `JsonRpcResponse` with
either a `result` or an `error` member, and its `id`. -/
structure Frame where
  result : Option FVal
  err : Option (Int × String)
  id : FVal

/-- The four registered plugin handlers of the `Server` instance; a
handler either returns a result value or throws a message. -/
structure Handlers where
  listResources : Option (FVal → Except String FVal)
  readResource : Option (FVal → Except String FVal)
  listTools : Option (Unit → Except String FVal)
  callTool : Option (FVal → FVal → Except String FVal)

/-- The parameter extraction `Array.isArray(params) ? params[i] :
params?.key`; the result is `undefined` when the index or key is
absent, or when `params` is not an object. -/
def extractParam (params : Option FVal) (i : Nat) (k : String) : Option FVal :=
  match params with
  | some (FVal.arr xs) => xs.get? i
  | some (FVal.obj kvs) => objGet kvs k
  | _ => none

/-- The coalescing `x ?? null` applied to an extracted parameter. -/
def nullCoalesce (x : Option FVal) : FVal :=
  match x with
  | none => FVal.null
  | some v => v

/-- The strict comparison `id === null`. -/
def isNullV (v : FVal) : Bool :=
  match v with
  | FVal.null => true
  | _ => false

/-- The try block of `Server.handleRequest` (main.ts lines 155 to 186):
dispatch on `method`; a missing handler, a missing required parameter,
an unknown method, or a throwing handler all end in the catch with the
thrown message. -/
def dispatchOutcome (h : Handlers) (method : FVal) (params : Option FVal) :
    Except String FVal :=
  match method with
  | FVal.str m =>
      if m = "list_resources" then
        match h.listResources with
        | none => Except.error "Method not found: list_resources"
        | some f => f (nullCoalesce (extractParam params 0 "cursor"))
      else if m = "read_resource" then
        match h.readResource with
        | none => Except.error "Method not found: read_resource"
        | some f =>
            let uri := extractParam params 0 "uri"
            if ¬ truthy uri then Except.error "Missing parameter: uri"
            else f (nullCoalesce uri)
      else if m = "list_tools" then
        match h.listTools with
        | none => Except.error "Method not found: list_tools"
        | some f => f ()
      else if m = "call_tool" then
        match h.callTool with
        | none => Except.error "Method not found: call_tool"
        | some f =>
            let toolName := extractParam params 0 "name"
            if ¬ truthy toolName then Except.error "Missing parameter: name"
            else f (nullCoalesce toolName) (nullCoalesce (extractParam params 1 "args"))
      else Except.error ("Method not found: " ++ m)
  | other => Except.error ("Method not found: " ++ jsToStr other)

/-- `Server.handleRequest` (main.ts lines 150 to 198): run the dispatch,
capture a failure as an internal error (-32603) carrying the message; if
`id` is `null` or absent the request is a notification and no response
is returned, otherwise exactly one response (result or error) carrying
that `id`. -/
def handleRequest (h : Handlers) (method : FVal) (params : Option FVal)
    (idField : Option FVal) : Option Frame :=
  match idField with
  | none => none
  | some idv =>
      if isNullV idv then none
      else
        match dispatchOutcome h method params with
        | Except.error msg => some ⟨none, some (-32603, msg), idv⟩
        | Except.ok r => some ⟨some r, none, idv⟩

/-- One inbound line, abstracted by the outcome of `JSON.parse` on its
trimmed text: blank (skipped), malformed JSON (parse throws), or a
parsed JSON value. -/
inductive InLine where
  | blank : InLine
  | malformed : InLine
  | parsed : FVal → InLine

/-- The error frame built in the catch block (main.ts lines 234 to 248):
code -32700 with `id: null`, except that when the line re-parses to an
object whose `id` member is present that `id` is carried forward. -/
def catchFrame (l : InLine) : Frame :=
  match l with
  | InLine.parsed (FVal.obj kvs) =>
      match objGet kvs "id" with
      | some idv => ⟨none, some (-32700, "Parse error"), idv⟩
      | none => ⟨none, some (-32700, "Parse error"), FVal.null⟩
  | _ => ⟨none, some (-32700, "Parse error"), FVal.null⟩

/-- The strict comparison `request.jsonrpc === '2.0'`. -/
def isVersion2 (v : Option FVal) : Bool :=
  match v with
  | some (FVal.str s) => s = "2.0"
  | _ => false

/-- Whether a parsed line passes the validation of main.ts line 222:
`request.jsonrpc === '2.0'` and a truthy `request.method`.  Property
access on a non-object yields `undefined` (and on `null` throws), so
only objects can pass. -/
def lineValid (l : InLine) : Bool :=
  match l with
  | InLine.parsed (FVal.obj kvs) =>
      isVersion2 (objGet kvs "jsonrpc") && truthy (objGet kvs "method")
  | _ => false

/-- The `id` member of a parsed object line. -/
def lineId (l : InLine) : Option FVal :=
  match l with
  | InLine.parsed (FVal.obj kvs) => objGet kvs "id"
  | _ => none

/-- Processing of one trimmed line in the data handler (main.ts lines
216 to 249): blank lines are skipped; a malformed line, a line failing
validation, and the `TypeError` of property access on parsed `null` all
reach the catch block; a validated request goes through `handleRequest`
and its response, when not a notification, is written as one frame. -/
def processLine (h : Handlers) (l : InLine) : List Frame :=
  match l with
  | InLine.blank => []
  | InLine.malformed => [catchFrame InLine.malformed]
  | InLine.parsed v =>
      match v with
      | FVal.obj kvs =>
          if isVersion2 (objGet kvs "jsonrpc") && truthy (objGet kvs "method")
          then
            match objGet kvs "method" with
            | some mv =>
                match handleRequest h mv (objGet kvs "params") (objGet kvs "id") with
                | none => []
                | some f => [f]
            | none => []
          else [catchFrame (InLine.parsed v)]
      | _ => [catchFrame (InLine.parsed v)]

/-- Sequential processing of the lines extracted from the inbound
buffer: frames are appended in line order. -/
def processLines (h : Handlers) (ls : List InLine) : List Frame :=
  match ls with
  | [] => []
  | l :: rest => processLine h l ++ processLines h rest

/-! ## JSON values, serialization and parsing

Model of the platform `JSON.stringify` / `JSON.parse` pair used by
`LocalAuthClient` (character-list based, so that the round-trip proof is
by structural induction).  The serializer emits the canonical compact
form; the parser is fuelled and accepts exactly that form. -/

/-- A JSON value (credentials objects, SSE payloads). Strings are
character lists. -/
inductive JVal where
  | null : JVal
  | boolean : Bool → JVal
  | num : Int → JVal
  | str : List Char → JVal
  | arr : List JVal → JVal
  | obj : List (List Char × JVal) → JVal

/-- The decimal digit character for `d % 10`. -/
def digitChar (d : Nat) : Char :=
  if d = 0 then '0' else if d = 1 then '1' else if d = 2 then '2'
  else if d = 3 then '3' else if d = 4 then '4' else if d = 5 then '5'
  else if d = 6 then '6' else if d = 7 then '7' else if d = 8 then '8' else '9'

/-- The numeric value of a decimal digit character. -/
def digitVal (c : Char) : Nat := c.toNat - 48

/-- Least-significant-first decimal digits of `n`, driven by fuel. -/
def natDigitsAux : Nat → Nat → List Char
  | 0, _ => []
  | fuel + 1, n => if n = 0 then [] else digitChar (n % 10) :: natDigitsAux fuel (n / 10)

/-- Decimal representation of a natural number, most significant digit
first. -/
def natDigits (n : Nat) : List Char :=
  if n = 0 then ['0'] else (natDigitsAux n n).reverse

/-- Decimal representation of an integer. -/
def stringifyInt (n : Int) : List Char :=
  if n < 0 then '-' :: natDigits n.natAbs else natDigits n.toNat

/-- JSON string escaping of one character (quotes and backslashes). -/
def escChar (c : Char) : List Char :=
  if c = '"' ∨ c = '\\' then ['\\', c] else [c]

/-- JSON string escaping. -/
def escapeStr : List Char → List Char
  | [] => []
  | c :: cs => escChar c ++ escapeStr cs

/-- A serialized JSON string literal. -/
def stringifyStr (s : List Char) : List Char := '"' :: escapeStr s ++ ['"']

mutual

/-- Compact `JSON.stringify` of a value. -/
def stringify : JVal → List Char
  | JVal.null => ['n', 'u', 'l', 'l']
  | JVal.boolean true => ['t', 'r', 'u', 'e']
  | JVal.boolean false => ['f', 'a', 'l', 's', 'e']
  | JVal.num n => stringifyInt n
  | JVal.str s => stringifyStr s
  | JVal.arr xs => '[' :: stringifyElems xs ++ [']']
  | JVal.obj kvs => '\x7b' :: stringifyMembers kvs ++ ['\x7d']

/-- Comma-joined serialization of array elements. -/
def stringifyElems : List JVal → List Char
  | [] => []
  | [x] => stringify x
  | x :: y :: rest => stringify x ++ ',' :: stringifyElems (y :: rest)

/-- Comma-joined serialization of object members. -/
def stringifyMembers : List (List Char × JVal) → List Char
  | [] => []
  | [(k, v)] => stringifyStr k ++ ':' :: stringify v
  | (k, v) :: m :: rest =>
      stringifyStr k ++ ':' :: stringify v ++ ',' :: stringifyMembers (m :: rest)

end

/-- Whether the list starts with the given character. -/
def headIs (cs : List Char) (c : Char) : Bool :=
  match cs with
  | [] => false
  | d :: _ => d = c

/-- Consume an expected literal, returning the remainder. -/
def stripLit : List Char → List Char → Option (List Char)
  | [], rest => some rest
  | _ :: _, [] => none
  | a :: ls, b :: rest => if a = b then stripLit ls rest else none

/-- Parse the body of a string literal after the opening quote,
unescaping, up to the closing quote.  The flag records whether the
previous character was an unconsumed backslash. -/
def parseStrB : Bool → List Char → Option (List Char × List Char)
  | _, [] => none
  | true, c :: cs =>
      match parseStrB false cs with
      | none => none
      | some p => some (c :: p.1, p.2)
  | false, c :: cs =>
      if c = '\\' then parseStrB true cs
      else if c = '"' then some ([], cs)
      else
        match parseStrB false cs with
        | none => none
        | some p => some (c :: p.1, p.2)

/-- Parse the body of a string literal after the opening quote. -/
def parseStrBody (cs : List Char) : Option (List Char × List Char) :=
  parseStrB false cs

/-- Parse a leading run of decimal digits. -/
def parseNatNum (cs : List Char) : Option (Nat × List Char) :=
  let ds := cs.takeWhile (fun c => c.isDigit)
  if ds.isEmpty then none
  else some (ds.foldl (fun acc c => acc * 10 + digitVal c) 0,
             cs.dropWhile (fun c => c.isDigit))

mutual

/-- Fuelled parser for one JSON value, returning the value and the
unconsumed remainder. -/
def parseVal : Nat → List Char → Option (JVal × List Char)
  | 0, _ => none
  | _ + 1, [] => none
  | fuel + 1, c :: cs =>
      if c = 'n' then
        match stripLit ['u', 'l', 'l'] cs with
        | none => none
        | some r => some (JVal.null, r)
      else if c = 't' then
        match stripLit ['r', 'u', 'e'] cs with
        | none => none
        | some r => some (JVal.boolean true, r)
      else if c = 'f' then
        match stripLit ['a', 'l', 's', 'e'] cs with
        | none => none
        | some r => some (JVal.boolean false, r)
      else if c = '"' then
        match parseStrBody cs with
        | none => none
        | some p => some (JVal.str p.1, p.2)
      else if c = '[' then
        if headIs cs ']' then some (JVal.arr [], cs.tail)
        else
          match parseElems fuel cs with
          | none => none
          | some p => some (JVal.arr p.1, p.2)
      else if c = '\x7b' then
        if headIs cs '\x7d' then some (JVal.obj [], cs.tail)
        else
          match parseMembers fuel cs with
          | none => none
          | some p => some (JVal.obj p.1, p.2)
      else if c = '-' then
        match parseNatNum cs with
        | none => none
        | some p => some (JVal.num (-(p.1 : Int)), p.2)
      else if c.isDigit then
        match parseNatNum (c :: cs) with
        | none => none
        | some p => some (JVal.num (p.1 : Int), p.2)
      else none

/-- Fuelled parser for a non-empty comma-separated element list up to
the closing bracket. -/
def parseElems : Nat → List Char → Option (List JVal × List Char)
  | 0, _ => none
  | fuel + 1, cs =>
      match parseVal fuel cs with
      | none => none
      | some (v, rest) =>
          match rest with
          | ',' :: rest₂ =>
              match parseElems fuel rest₂ with
              | none => none
              | some (l, rest₃) => some (v :: l, rest₃)
          | ']' :: rest₂ => some ([v], rest₂)
          | _ => none

/-- Fuelled parser for a non-empty member list up to the closing brace. -/
def parseMembers : Nat → List Char → Option (List (List Char × JVal) × List Char)
  | 0, _ => none
  | fuel + 1, cs =>
      match cs with
      | '"' :: cs₂ =>
          match parseStrBody cs₂ with
          | none => none
          | some (k, rest) =>
              match rest with
              | ':' :: rest₂ =>
                  match parseVal fuel rest₂ with
                  | none => none
                  | some (v, rest₃) =>
                      match rest₃ with
                      | ',' :: rest₄ =>
                          match parseMembers fuel rest₄ with
                          | none => none
                          | some (l, rest₅) => some ((k, v) :: l, rest₅)
                      | '\x7d' :: rest₄ => some ([(k, v)], rest₄)
                      | _ => none
              | _ => none
      | _ => none

end

/-- `JSON.parse` on a whole text: run the fuelled parser with enough
fuel and require that the text is consumed entirely. -/
def parseJson (cs : List Char) : Option JVal :=
  match parseVal cs.length cs with
  | some (v, []) => some v
  | _ => none

/-! ## LocalAuthClient credential store
(src/src/auth/clients/LocalAuthClient.ts)

The filesystem is a map from paths to file contents.  The claim under
study concerns credentials objects without a `toJSON` method, so the
serialization step modelled is the `JSON.stringify(credentials)` branch
of `saveUserCredentials` (lines 121 to 133). -/

/-- The filesystem visible to `LocalAuthClient`, relative to its
credentials base directory. -/
def FileSys : Type := String → Option (List Char)

/-- The path `path.join(serviceDir, userId + "_credentials.json")` built
by both credential methods. -/
def credsPath (serviceName userId : String) : String :=
  serviceName ++ "/" ++ userId ++ "_credentials.json"

/-- `LocalAuthClient.saveUserCredentials` (lines 99 to 137) for a plain
credentials object (no `toJSON` method): serialize with
`JSON.stringify` and write the file. -/
def saveUserCredentials (fs : FileSys) (serviceName userId : String)
    (credentials : JVal) : FileSys :=
  fun p => if p = credsPath serviceName userId then some (stringify credentials) else fs p

/-- `LocalAuthClient.getUserCredentials` (lines 73 to 97): return `null`
when the credentials file does not exist, otherwise read it and
`JSON.parse` the contents (a parse failure throws). -/
def getUserCredentials (fs : FileSys) (serviceName userId : String) :
    Except String (Option JVal) :=
  match fs (credsPath serviceName userId) with
  | none => Except.ok none
  | some content =>
      match parseJson content with
      | some v => Except.ok (some v)
      | none => Except.error "Unexpected token in JSON"

/-! ## SSE outbound writer (src/unnamed/part_000, lines 323 to 340)

The `write` callback of the SSE `writeStream`: serialize non-textual
chunks, prefix every line with `data: `, join with single newlines,
terminate with a blank line; writing after the response has ended calls
back with an error. -/

/-- Split on newline characters; the result is always non-empty and its
pieces contain no newline.  Model of `String.prototype.split('\n')`. -/
def splitNl : List Char → List (List Char)
  | [] => [[]]
  | c :: cs =>
      match splitNl cs with
      | [] => [[]]
      | l :: ls => if c = '\n' then [] :: l :: ls else (c :: l) :: ls

/-- Join pieces with single newline characters, the model of
`Array.prototype.join('\n')`. -/
def joinNl : List (List Char) → List Char
  | [] => []
  | [l] => l
  | l :: l₂ :: ls => l ++ '\n' :: joinNl (l₂ :: ls)

/-- The characters of the `data: ` prefix. -/
def dataPfx : List Char := ['d', 'a', 't', 'a', ':', ' ']

/-- A chunk written to the SSE write stream: either already textual or a
value serialized with `JSON.stringify`. -/
inductive SsePayload where
  | text : List Char → SsePayload
  | value : JVal → SsePayload

/-- The `typeof chunk === 'string' ? chunk : JSON.stringify(chunk)`
step. -/
def payloadText : SsePayload → List Char
  | SsePayload.text s => s
  | SsePayload.value v => stringify v

/-- The `write(chunk, encoding, callback)` body of the SSE write stream:
format the chunk as one SSE event and emit it, unless the underlying
response has ended, in which case fail with the channel-closed error. -/
def sseWrite (writableEnded : Bool) (chunk : SsePayload) : Except String (List Char) :=
  let dataString := payloadText chunk
  let lines := joinNl ((splitNl dataString).map (fun line => dataPfx ++ line))
  if ¬ writableEnded then Except.ok (lines ++ ['\n', '\n'])
  else Except.error "Cannot write to closed SSE stream"

/-- A `Server` instance with no registered handlers, used as a concrete
handler environment. -/
def hEmpty : Handlers := ⟨none, none, none, none⟩

/-! ## Proof-side helper functions (not part of the source model) -/

/-- Proof helper: numeric value of least-significant-first decimal digit
characters. -/
def ofRevDigits : List Char → Nat
  | [] => 0
  | c :: cs => digitVal c + 10 * ofRevDigits cs

/-- Proof helper: the remainder does not begin with a decimal digit, so
a preceding number token cannot absorb it. -/
def noDigitLead (rest : List Char) : Prop :=
  ∀ c cs, rest = c :: cs → c.isDigit = false

/-- Proof helper: the characters that can begin a serialized JSON
value. -/
def startChar (c : Char) : Bool :=
  c = 'n' || c = 't' || c = 'f' || c = '"' || c = '[' || c = '\x7b' ||
    c = '-' || c.isDigit

/-! ## Helper lemmas on the association-list maps -/

theorem mapGet_mapSet_self {α : Type} (m : List (String × α)) (k : String) (v : α) :
    mapGet (mapSet m k v) k = some v := by
  induction m with
  | nil => simp [mapSet, mapGet]
  | cons hd tl ih =>
      obtain ⟨k₁, v₁⟩ := hd
      by_cases hk : k₁ = k
      · subst hk; simp [mapSet, mapGet]
      · simp [mapSet, mapGet, hk, ih]

theorem mapGet_mapSet_ne {α : Type} (m : List (String × α)) (k k' : String) (v : α)
    (h : k ≠ k') : mapGet (mapSet m k v) k' = mapGet m k' := by
  induction m with
  | nil => simp [mapSet, mapGet, h]
  | cons hd tl ih =>
      obtain ⟨k₁, v₁⟩ := hd
      by_cases hk : k₁ = k
      · subst hk; simp [mapSet, mapGet, h, ih]
      · simp [mapSet, mapGet, hk, ih]

/-! ## Discovery helper lemmas -/

/-- The per-entry step of `discoverAndLoadServers`. -/
def discoverStep (acc : List (String × ServerInfo)) (e : DirEntry) :
    List (String × ServerInfo) :=
  if e.isDirectory then
    match loadServerModule e with
    | some info => mapSet acc e.name info
    | none => acc
  else acc

theorem discoverAndLoadServers_eq_foldl (entries : List DirEntry) :
    discoverAndLoadServers entries = entries.foldl discoverStep [] := by
  unfold discoverAndLoadServers discoverStep
  rfl

theorem validPlugin_iff (e : DirEntry) :
    validPlugin e = true ↔ e.isDirectory = true ∧ loadServerModule e ≠ none := by
  unfold validPlugin loadServerModule
  cases hd : e.isDirectory <;> cases hm : e.hasMainFile <;> cases hi : e.importResult <;>
    simp [*]
  case true.true.some m =>
    by_cases h₁ : m.serverTy = JsType.func <;>
      by_cases h₂ : m.serverTy = JsType.object <;>
      by_cases h₃ : m.getInitTy = JsType.func <;>
      simp [h₁, h₂, h₃]

theorem discoverStep_invalid (acc : List (String × ServerInfo)) (e : DirEntry)
    (h : validPlugin e = false) : discoverStep acc e = acc := by
  unfold discoverStep
  cases hd : e.isDirectory
  · simp
  · have hnone : loadServerModule e = none := by
      by_contra hne
      have := (validPlugin_iff e).mpr ⟨hd, hne⟩
      rw [this] at h
      exact absurd h (by simp)
    simp [hnone]

theorem discoverStep_mapGet_ne (acc : List (String × ServerInfo)) (e : DirEntry)
    (k : String) (h : e.name ≠ k) : mapGet (discoverStep acc e) k = mapGet acc k := by
  unfold discoverStep
  cases e.isDirectory
  · simp
  · cases hl : loadServerModule e
    · simp
    · simp [mapGet_mapSet_ne _ _ _ _ h]

/-- Folding the discovery step over entries none of which is named `k`
leaves the binding of `k` unchanged. -/
theorem discover_foldl_not_named (entries : List DirEntry) :
    ∀ acc (k : String), (∀ e ∈ entries, e.name ≠ k) →
      mapGet (entries.foldl discoverStep acc) k = mapGet acc k := by
  induction entries with
  | nil => intro acc k _; rfl
  | cons e rest ih =>
      intro acc k hk
      simp only [List.foldl_cons]
      rw [ih _ k (fun e₂ he₂ => hk e₂ (List.mem_cons_of_mem _ he₂))]
      exact discoverStep_mapGet_ne acc e k (hk e (List.mem_cons_self _ _))

/-! ## Claim C1: teardown gauge accounting (code bug)

The close-event handler (part_000 lines 351 to 366) decrements the
`activeConnections` gauge unconditionally, while the `finally` block
(lines 390 to 398) guards its decrement with a transport-map membership
check ("Ensure decrement if not closed via event").  When the plugin's
`run` call returns, the `finally` block runs first (it is the
synchronous continuation), the response is ended, and the close event
then fires on the ended connection: both paths decrement, so one
connect/teardown cycle moves the gauge by two, not one. -/

/-- Claim C1: the claim states that across a connect/teardown cycle the
per-plugin gauge is decremented exactly once regardless of which
teardown paths fire (`gauge_before - gauge_after == 1`).  The code
violates this: with the teardown trigger order produced by a returning
`run` call (finally block, then close event) the gauge is decremented
twice — it stands at 1 after the connect and at -1 after the teardown,
a difference of 2. -/
theorem c1_gauge_double_decrement :
    (sseConnect initGw "gcalendar" "gcalendar:alice").gauge "gcalendar" = 1 ∧
    (onCloseEvent
        (onFinallyBlock (sseConnect initGw "gcalendar" "gcalendar:alice")
          "gcalendar" "gcalendar:alice")
        "gcalendar" "gcalendar:alice").gauge "gcalendar" = -1 ∧
    (sseConnect initGw "gcalendar" "gcalendar:alice").gauge "gcalendar" -
      (onCloseEvent
          (onFinallyBlock (sseConnect initGw "gcalendar" "gcalendar:alice")
            "gcalendar" "gcalendar:alice")
          "gcalendar" "gcalendar:alice").gauge "gcalendar" ≠ 1 := by
  exact ⟨rfl, rfl, by decide⟩

/-! ## Claim C6: instance reuse on reconnect -/

/-- Claim C6: when a `ServerInstance` already exists for the sessionKey,
the get-or-create block returns that very instance (same identity),
constructs nothing (the fresh-identity counter is untouched), and leaves
the instance map and the gauge unchanged; a new instance is constructed
and stored only when the map has no entry for the sessionKey. -/
theorem c6_instance_reuse (st : GwState) (serverName sessionKey : String) :
    (∀ inst, mapGet st.instances sessionKey = some inst →
      (getOrCreateInstance st serverName sessionKey).1 = inst ∧
      (getOrCreateInstance st serverName sessionKey).2.1 = false ∧
      (getOrCreateInstance st serverName sessionKey).2.2.instances = st.instances ∧
      (getOrCreateInstance st serverName sessionKey).2.2.nextInst = st.nextInst ∧
      (getOrCreateInstance st serverName sessionKey).2.2.gauge = st.gauge) ∧
    (mapGet st.instances sessionKey = none →
      (getOrCreateInstance st serverName sessionKey).2.1 = true ∧
      (getOrCreateInstance st serverName sessionKey).1 = st.nextInst ∧
      (getOrCreateInstance st serverName sessionKey).2.2.nextInst = st.nextInst + 1 ∧
      mapGet (getOrCreateInstance st serverName sessionKey).2.2.instances sessionKey =
        some st.nextInst) := by
  constructor
  · intro inst hinst
    simp [getOrCreateInstance, hinst]
  · intro hnone
    simp [getOrCreateInstance, hnone, mapGet_mapSet_self]

/-- Witness for C6: a state holding instance 5 under the key returns
instance 5 unchanged. -/
theorem c6_instance_reuse_witness :
    (getOrCreateInstance
        { instances := [("gcalendar:alice", 5)], transports := [],
          gauge := fun _ => 1, connTotal := fun _ => 3, nextInst := 6 }
        "gcalendar" "gcalendar:alice").1 = 5 ∧
    (getOrCreateInstance
        { instances := [("gcalendar:alice", 5)], transports := [],
          gauge := fun _ => 1, connTotal := fun _ => 3, nextInst := 6 }
        "gcalendar" "gcalendar:alice").2.2.nextInst = 6 := by
  have h := (c6_instance_reuse
    { instances := [("gcalendar:alice", 5)], transports := [],
      gauge := fun _ => 1, connTotal := fun _ => 3, nextInst := 6 }
    "gcalendar" "gcalendar:alice").1 5 rfl
  exact ⟨h.1, h.2.2.2.1⟩

/-! ## Claim C7: message-post route -/

/-- Claim C7: posting to a sessionKey with no registered transport
yields 404 (not a 2xx) and leaves the whole gateway state untouched
(nothing is enqueued, no session map is mutated); posting to a live
transport appends the body as exactly one inbound message to that
transport's queue, leaves the instance map untouched, and yields 202
independently of any processing. -/
theorem c7_post_message (st : GwState) (serverName keyEnc : String) (body : FVal) :
    (mapGet st.transports (serverName ++ ":" ++ keyEnc) = none →
      (postMessage st serverName keyEnc body).1 = 404 ∧
      ¬(200 ≤ (postMessage st serverName keyEnc body).1 ∧
          (postMessage st serverName keyEnc body).1 < 300) ∧
      (postMessage st serverName keyEnc body).2 = st) ∧
    (∀ q, mapGet st.transports (serverName ++ ":" ++ keyEnc) = some q →
      (postMessage st serverName keyEnc body).1 = 202 ∧
      mapGet (postMessage st serverName keyEnc body).2.transports
          (serverName ++ ":" ++ keyEnc) = some (q ++ [body]) ∧
      (postMessage st serverName keyEnc body).2.instances = st.instances ∧
      (postMessage st serverName keyEnc body).2.gauge = st.gauge) := by
  constructor
  · intro hnone
    refine ⟨?_, ?_, ?_⟩ <;> simp [postMessage, hnone]
  · intro q hq
    refine ⟨?_, ?_, ?_, ?_⟩ <;> simp [postMessage, hq, mapGet_mapSet_self]

/-- Witness for C7: posting to an empty transport map yields 404 and no
state change; posting to a registered session yields 202. -/
theorem c7_post_message_witness :
    (postMessage initGw "gcalendar" "alice" FVal.null).1 = 404 ∧
    (postMessage
        { instances := [], transports := [("gcalendar:alice", [])],
          gauge := fun _ => 0, connTotal := fun _ => 0, nextInst := 0 }
        "gcalendar" "alice" FVal.null).1 = 202 := by
  constructor
  · exact ((c7_post_message initGw "gcalendar" "alice" FVal.null).1 rfl).1
  · exact ((c7_post_message
      { instances := [], transports := [("gcalendar:alice", [])],
        gauge := fun _ => 0, connTotal := fun _ => 0, nextInst := 0 }
      "gcalendar" "alice" FVal.null).2 [] rfl).1

/-! ## Claim C8: discovery skips malformed plugins -/

/-- Claim C8: over any set of candidate directories with distinct names,
every directory failing the entry-file existence check or the export
shape check is absent from the discovery result, while every valid
sibling directory is loaded; the discovery pass is a total function, so
a malformed plugin never aborts it. -/
theorem c8_discovery_skips_invalid (entries : List DirEntry)
    (hnd : (entries.map DirEntry.name).Nodup) :
    ∀ e ∈ entries,
      (validPlugin e = true →
        ∃ info, mapGet (discoverAndLoadServers entries) e.name = some info) ∧
      (validPlugin e = false →
        mapGet (discoverAndLoadServers entries) e.name = none) := by
  rw [discoverAndLoadServers_eq_foldl]
  suffices h : ∀ (acc : List (String × ServerInfo)),
      ∀ e ∈ entries,
        (validPlugin e = true →
          ∃ info, mapGet (entries.foldl discoverStep acc) e.name = some info) ∧
        (validPlugin e = false →
          mapGet (entries.foldl discoverStep acc) e.name = mapGet acc e.name) by
    intro e he
    refine ⟨((h []) e he).1, fun hinv => ?_⟩
    rw [((h []) e he).2 hinv]
    rfl
  induction entries with
  | nil => intro acc e he; cases he
  | cons e₀ rest ih =>
      intro acc e he
      have hname : e₀.name ∉ rest.map DirEntry.name := by
        simp only [List.map_cons, List.nodup_cons] at hnd
        exact hnd.1
      have hrest_nd : (rest.map DirEntry.name).Nodup := by
        simp only [List.map_cons, List.nodup_cons] at hnd
        exact hnd.2
      rcases List.mem_cons.mp he with rfl | hmem
      · -- the entry at the head of the list
        have hnotin : ∀ e₂ ∈ rest, e₂.name ≠ e.name := by
          intro e₂ he₂ hne
          exact hname (hne ▸ List.mem_map_of_mem DirEntry.name he₂)
        constructor
        · intro hv
          simp only [List.foldl_cons]
          rw [discover_foldl_not_named rest _ e.name hnotin]
          have hd : e.isDirectory = true := ((validPlugin_iff e).mp hv).1
          have hl : loadServerModule e ≠ none := ((validPlugin_iff e).mp hv).2
          cases hload : loadServerModule e with
          | none => exact absurd hload hl
          | some info =>
              refine ⟨info, ?_⟩
              unfold discoverStep
              rw [hd, hload]
              simp [mapGet_mapSet_self]
        · intro hinv
          simp only [List.foldl_cons]
          rw [discoverStep_invalid acc e hinv]
          exact discover_foldl_not_named rest acc e.name hnotin
      · -- the entry is among the remaining siblings
        have hne₀ : e₀.name ≠ e.name := by
          intro hne
          exact hname (hne ▸ List.mem_map_of_mem DirEntry.name hmem)
        have := ih hrest_nd (discoverStep acc e₀) e hmem
        refine ⟨this.1, fun hinv => ?_⟩
        simp only [List.foldl_cons]
        rw [this.2 hinv]
        exact discoverStep_mapGet_ne acc e₀ e.name hne₀

/-- Witness for C8: one directory missing its entry file and one valid
sibling; the invalid one is skipped, the valid one is loaded. -/
theorem c8_discovery_skips_invalid_witness :
    mapGet (discoverAndLoadServers
      [⟨"broken", true, false, none⟩,
       ⟨"gcalendar", true, true, some ⟨JsType.func, JsType.func⟩⟩]) "broken" = none ∧
    ∃ info, mapGet (discoverAndLoadServers
      [⟨"broken", true, false, none⟩,
       ⟨"gcalendar", true, true, some ⟨JsType.func, JsType.func⟩⟩]) "gcalendar" =
        some info := by
  have h := c8_discovery_skips_invalid
    [⟨"broken", true, false, none⟩,
     ⟨"gcalendar", true, true, some ⟨JsType.func, JsType.func⟩⟩]
    (by simp)
  constructor
  · exact (h ⟨"broken", true, false, none⟩ (by simp)).2 rfl
  · exact (h ⟨"gcalendar", true, true, some ⟨JsType.func, JsType.func⟩⟩ (by simp)).1 rfl

/-! ## Claim C9: auth client factory never throws -/

/-- Claim C9: `createAuthClient` always returns a client and never
throws: the constructed `clientType` when one is provided, the Gumloop
client when `ENVIRONMENT` lower-cases to `gumloop`, and the local client
otherwise; in particular the trailing `throw` is unreachable. -/
theorem c9_createAuthClient_total (clientType : Option Nat) (apiKey envVar : Option String) :
    (∃ c, createAuthClient clientType apiKey envVar = Except.ok c) ∧
    (∀ t, clientType = some t →
      createAuthClient clientType apiKey envVar = Except.ok (AuthClientR.constructed t)) ∧
    (clientType = none → lowerStr (envString envVar) = "gumloop" →
      createAuthClient clientType apiKey envVar =
        Except.ok (AuthClientR.gumloop (normApiKey apiKey))) ∧
    (clientType = none → lowerStr (envString envVar) ≠ "gumloop" →
      createAuthClient clientType apiKey envVar = Except.ok AuthClientR.localClient) ∧
    createAuthClient clientType apiKey envVar ≠ trailingThrow := by
  cases clientType with
  | some t =>
      refine ⟨⟨AuthClientR.constructed t, rfl⟩, ?_, ?_, ?_, ?_⟩
      · intro t' ht'; cases ht'; rfl
      · intro h; cases h
      · intro h; cases h
      · intro h; cases h
  | none =>
      by_cases hg : lowerStr (envString envVar) = "gumloop"
      · refine ⟨⟨AuthClientR.gumloop (normApiKey apiKey), ?_⟩, ?_, ?_, ?_, ?_⟩
        · simp [createAuthClient, hg]
        · intro t' ht'; cases ht'
        · intro _ _; simp [createAuthClient, hg]
        · intro _ hne; exact absurd hg hne
        · simp [createAuthClient, hg, trailingThrow]
      · refine ⟨⟨AuthClientR.localClient, ?_⟩, ?_, ?_, ?_, ?_⟩
        · simp [createAuthClient, hg]
        · intro t' ht'; cases ht'
        · intro _ hgl; exact absurd hgl hg
        · intro _ _; simp [createAuthClient, hg]
        · simp [createAuthClient, hg, trailingThrow]

/-- Witness for C9: with no client type and `ENVIRONMENT=GUMLOOP` the
Gumloop client is returned with its api key. -/
theorem c9_createAuthClient_total_witness :
    createAuthClient none (some "key1") (some "GUMLOOP") =
      Except.ok (AuthClientR.gumloop (some "key1")) := by
  have h := (c9_createAuthClient_total none (some "key1") (some "GUMLOOP")).2.2.1
    rfl (by decide)
  rw [h]
  rfl

/-! ## Framer lemmas -/

theorem handleRequest_id_absent (h : Handlers) (method : FVal) (params : Option FVal) :
    handleRequest h method params none = none := rfl

theorem handleRequest_id_null (h : Handlers) (method : FVal) (params : Option FVal) :
    handleRequest h method params (some FVal.null) = none := rfl

theorem isNullV_eq_false (idv : FVal) (hne : idv ≠ FVal.null) : isNullV idv = false := by
  cases idv <;> first | exact absurd rfl hne | rfl

/-- A validated request has a (truthy, hence present) method member. -/
theorem method_present_of_valid (kvs : List (String × FVal))
    (hv : lineValid (InLine.parsed (FVal.obj kvs)) = true) :
    ∃ mv, objGet kvs "method" = some mv := by
  simp only [lineValid] at hv
  cases hmm : objGet kvs "method" with
  | none => rw [hmm] at hv; simp [truthy] at hv
  | some mv => exact ⟨mv, rfl⟩

theorem handleRequest_id_present (h : Handlers) (method : FVal) (params : Option FVal)
    (idv : FVal) (hne : idv ≠ FVal.null) :
    ∃ f : Frame, handleRequest h method params (some idv) = some f ∧ f.id = idv ∧
      (f.result.isSome ∨ f.err.isSome) := by
  have hb : isNullV idv = false := isNullV_eq_false idv hne
  cases ho : dispatchOutcome h method params with
  | error msg =>
      refine ⟨⟨none, some (-32603, msg), idv⟩, ?_, rfl, Or.inr rfl⟩
      simp [handleRequest, hb, ho]
  | ok r =>
      refine ⟨⟨some r, none, idv⟩, ?_, rfl, Or.inl rfl⟩
      simp [handleRequest, hb, ho]

/-- On a validated object line, processing reduces to `handleRequest`. -/
theorem processLine_valid (h : Handlers) (kvs : List (String × FVal)) (mv : FVal)
    (hv : lineValid (InLine.parsed (FVal.obj kvs)) = true)
    (hm : objGet kvs "method" = some mv) :
    processLine h (InLine.parsed (FVal.obj kvs)) =
      match handleRequest h mv (objGet kvs "params") (objGet kvs "id") with
      | none => []
      | some f => [f] := by
  simp only [lineValid] at hv
  simp only [processLine]
  rw [hv]
  simp only [if_true]
  rw [hm]

/-- On an object line that fails validation, the catch block emits the
parse-error frame. -/
theorem processLine_invalid (h : Handlers) (kvs : List (String × FVal))
    (hv : lineValid (InLine.parsed (FVal.obj kvs)) = false) :
    processLine h (InLine.parsed (FVal.obj kvs)) =
      [catchFrame (InLine.parsed (FVal.obj kvs))] := by
  simp only [lineValid] at hv
  simp only [processLine, hv, Bool.false_eq_true, if_false]

/-! ## Claim C2: notifications (corrected) -/

/-- Counterexample to claim C2 as stated: the line
`\x7b"jsonrpc":"1.0","method":"ping"\x7d` is valid JSON whose request
has an absent `id` (a notification), and its schema validation fails
(wrong version); the claim says no response frame may be written even
then, but the catch block writes one parse-error frame with `id: null`. -/
theorem c2_notification_error_frame_counterexample :
    processLine hEmpty (InLine.parsed (FVal.obj
      [("jsonrpc", FVal.str "1.0"), ("method", FVal.str "ping")])) =
      [⟨none, some (-32700, "Parse error"), FVal.null⟩] ∧
    processLine hEmpty (InLine.parsed (FVal.obj
      [("jsonrpc", FVal.str "1.0"), ("method", FVal.str "ping")])) ≠ [] := by
  constructor
  · rfl
  · intro hcontra
    rw [show processLine hEmpty (InLine.parsed (FVal.obj
      [("jsonrpc", FVal.str "1.0"), ("method", FVal.str "ping")])) =
      [⟨none, some (-32700, "Parse error"), FVal.null⟩] from rfl] at hcontra
    cases hcontra

/-- Claim C2 (amended): an inbound line that parses and passes schema
validation and whose `id` is absent or `null` (a notification) produces
no response frame, even when the dispatched handler fails; a notification
that fails parsing or schema validation, however, is answered by the
catch block with a parse-error frame. -/
theorem c2_validated_notification_no_frame (h : Handlers) (kvs : List (String × FVal))
    (hv : lineValid (InLine.parsed (FVal.obj kvs)) = true)
    (hid : objGet kvs "id" = none ∨ objGet kvs "id" = some FVal.null) :
    processLine h (InLine.parsed (FVal.obj kvs)) = [] := by
  obtain ⟨mv, hm⟩ := method_present_of_valid kvs hv
  rw [processLine_valid h kvs mv hv hm]
  rcases hid with hid | hid <;> rw [hid]
  · rw [handleRequest_id_absent]
  · rw [handleRequest_id_null]

/-- Witness for the amended C2: a well-formed `list_tools` notification
(no `id`) produces no frame even though the handler is unregistered and
the dispatch therefore fails. -/
theorem c2_validated_notification_no_frame_witness :
    processLine hEmpty (InLine.parsed (FVal.obj
      [("jsonrpc", FVal.str "2.0"), ("method", FVal.str "list_tools")])) = [] :=
  c2_validated_notification_no_frame hEmpty
    [("jsonrpc", FVal.str "2.0"), ("method", FVal.str "list_tools")]
    rfl (Or.inl rfl)

/-! ## Claim C3: one in-order response per id-carrying request -/

/-- Claim C3: every line that is a valid JSON-RPC request carrying a
present non-null `id` produces exactly one response frame (a result or
an error) with that same `id`; and over any sequence of such lines the
emitted frames carry the request ids in the order of the requests, so
responses are emitted in the same relative order as the requests that
produced them. -/
theorem c3_one_response_per_request (h : Handlers) :
    (∀ (kvs : List (String × FVal)) (idv : FVal),
        lineValid (InLine.parsed (FVal.obj kvs)) = true →
        objGet kvs "id" = some idv → idv ≠ FVal.null →
        ∃ f : Frame, processLine h (InLine.parsed (FVal.obj kvs)) = [f] ∧
          f.id = idv ∧ (f.result.isSome ∨ f.err.isSome)) ∧
    (∀ ls : List InLine,
        (∀ l ∈ ls, lineValid l = true ∧
          ∃ idv, lineId l = some idv ∧ idv ≠ FVal.null) →
        (processLines h ls).map Frame.id = ls.filterMap lineId) := by
  have part1 : ∀ (kvs : List (String × FVal)) (idv : FVal),
      lineValid (InLine.parsed (FVal.obj kvs)) = true →
      objGet kvs "id" = some idv → idv ≠ FVal.null →
      ∃ f : Frame, processLine h (InLine.parsed (FVal.obj kvs)) = [f] ∧
        f.id = idv ∧ (f.result.isSome ∨ f.err.isSome) := by
    intro kvs idv hv hid hne
    obtain ⟨mv, hm⟩ := method_present_of_valid kvs hv
    obtain ⟨f, hf, hfid, hfkind⟩ :=
      handleRequest_id_present h mv (objGet kvs "params") idv hne
    refine ⟨f, ?_, hfid, hfkind⟩
    rw [processLine_valid h kvs mv hv hm, hid, hf]
  refine ⟨part1, ?_⟩
  intro ls hls
  induction ls with
  | nil => rfl
  | cons l rest ih =>
      have hl := hls l (List.mem_cons_self _ _)
      obtain ⟨hv, idv, hid, hne⟩ := hl
      have hobj : ∃ kvs, l = InLine.parsed (FVal.obj kvs) := by
        cases l with
        | blank => simp [lineValid] at hv
        | malformed => simp [lineValid] at hv
        | parsed v =>
            cases v with
            | obj kvs => exact ⟨kvs, rfl⟩
            | null => simp [lineValid] at hv
            | boolean b => simp [lineValid] at hv
            | num n => simp [lineValid] at hv
            | str s => simp [lineValid] at hv
            | arr xs => simp [lineValid] at hv
      obtain ⟨kvs, rfl⟩ := hobj
      have hid' : objGet kvs "id" = some idv := hid
      obtain ⟨f, hf, hfid, _⟩ := part1 kvs idv hv hid' hne
      have ihrest := ih (fun l₂ hl₂ => hls l₂ (List.mem_cons_of_mem _ hl₂))
      simp only [processLines, List.filterMap_cons]
      rw [hf]
      simp only [List.map_append, List.map_cons, List.map_nil, hfid]
      rw [ihrest]
      simp [lineId, hid']

/-- Witness for C3: two id-carrying `list_tools` requests produce two
frames whose ids are `1` and `2` in order. -/
theorem c3_one_response_per_request_witness :
    (processLines hEmpty
      [InLine.parsed (FVal.obj [("jsonrpc", FVal.str "2.0"),
          ("method", FVal.str "list_tools"), ("id", FVal.num 1)]),
       InLine.parsed (FVal.obj [("jsonrpc", FVal.str "2.0"),
          ("method", FVal.str "list_tools"), ("id", FVal.num 2)])]).map Frame.id =
      [FVal.num 1, FVal.num 2] := by
  have h := (c3_one_response_per_request hEmpty).2
    [InLine.parsed (FVal.obj [("jsonrpc", FVal.str "2.0"),
        ("method", FVal.str "list_tools"), ("id", FVal.num 1)]),
     InLine.parsed (FVal.obj [("jsonrpc", FVal.str "2.0"),
        ("method", FVal.str "list_tools"), ("id", FVal.num 2)])]
    (by
      intro l hl
      rcases List.mem_cons.mp hl with rfl | hl₂
      · exact ⟨rfl, FVal.num 1, rfl, fun hc => by cases hc⟩
      · rcases List.mem_cons.mp hl₂ with rfl | hl₃
        · exact ⟨rfl, FVal.num 2, rfl, fun hc => by cases hc⟩
        · cases hl₃)
  rw [h]
  rfl

/-! ## Claim C4: error responses (corrected) -/

/-- Counterexample to claim C4 as stated: the line
`\x7b"jsonrpc":"2.0","method":"bogus","id":null\x7d` is valid JSON with
a recoverable `id` member and an unknown method, so the claim requires a
"method not found" error response carrying that `id`; the code treats
the null-id request as a notification and emits nothing at all. -/
theorem c4_unknown_method_null_id_counterexample :
    processLine hEmpty (InLine.parsed (FVal.obj
      [("jsonrpc", FVal.str "2.0"), ("method", FVal.str "bogus"),
       ("id", FVal.null)])) = [] := rfl

/-- Claim C4 (amended): a line that is not valid JSON is answered with a
-32700 frame with `id: null`; a line that parses to an object with an
`id` member but fails schema validation is answered with a -32700 frame
carrying that `id` forward; a validated request naming an unknown method
is answered with a "Method not found" error carrying its `id`, provided
that `id` is present and non-null (with a null or absent `id` such a
request is a notification and no frame is emitted). -/
theorem c4_error_responses (h : Handlers) :
    (processLine h InLine.malformed =
      [⟨none, some (-32700, "Parse error"), FVal.null⟩]) ∧
    (∀ (kvs : List (String × FVal)) (idv : FVal),
        objGet kvs "id" = some idv →
        lineValid (InLine.parsed (FVal.obj kvs)) = false →
        processLine h (InLine.parsed (FVal.obj kvs)) =
          [⟨none, some (-32700, "Parse error"), idv⟩]) ∧
    (∀ (kvs : List (String × FVal)) (m : String) (idv : FVal),
        lineValid (InLine.parsed (FVal.obj kvs)) = true →
        objGet kvs "method" = some (FVal.str m) →
        m ≠ "list_resources" → m ≠ "read_resource" →
        m ≠ "list_tools" → m ≠ "call_tool" →
        objGet kvs "id" = some idv → idv ≠ FVal.null →
        processLine h (InLine.parsed (FVal.obj kvs)) =
          [⟨none, some (-32603, "Method not found: " ++ m), idv⟩]) := by
  refine ⟨rfl, ?_, ?_⟩
  · intro kvs idv hid hv
    rw [processLine_invalid h kvs hv]
    simp [catchFrame, hid]
  · intro kvs m idv hv hm h₁ h₂ h₃ h₄ hid hne
    rw [processLine_valid h kvs (FVal.str m) hv hm, hid]
    have hdisp : dispatchOutcome h (FVal.str m) (objGet kvs "params") =
        Except.error ("Method not found: " ++ m) := by
      unfold dispatchOutcome
      simp [h₁, h₂, h₃, h₄]
    have hb : isNullV idv = false := isNullV_eq_false idv hne
    simp [handleRequest, hb, hdisp]

/-- Witness for the amended C4: a schema-invalid line (wrong version)
with `id: 3` is answered with -32700 carrying id 3, and an unknown
method with id 7 is answered with the method-not-found error. -/
theorem c4_error_responses_witness :
    processLine hEmpty (InLine.parsed (FVal.obj
      [("jsonrpc", FVal.str "1.0"), ("method", FVal.str "x"),
       ("id", FVal.num 3)])) =
      [⟨none, some (-32700, "Parse error"), FVal.num 3⟩] ∧
    processLine hEmpty (InLine.parsed (FVal.obj
      [("jsonrpc", FVal.str "2.0"), ("method", FVal.str "bogus"),
       ("id", FVal.num 7)])) =
      [⟨none, some (-32603, "Method not found: bogus"), FVal.num 7⟩] := by
  constructor
  · exact (c4_error_responses hEmpty).2.1
      [("jsonrpc", FVal.str "1.0"), ("method", FVal.str "x"), ("id", FVal.num 3)]
      (FVal.num 3) rfl rfl
  · exact (c4_error_responses hEmpty).2.2
      [("jsonrpc", FVal.str "2.0"), ("method", FVal.str "bogus"), ("id", FVal.num 7)]
      "bogus" (FVal.num 7) rfl rfl
      (by decide) (by decide) (by decide) (by decide) rfl
      (fun hc => by cases hc)

/-! ## SSE writer lemmas -/

theorem splitNl_ne_nil (s : List Char) : splitNl s ≠ [] := by
  induction s with
  | nil => simp [splitNl]
  | cons c cs ih =>
      simp only [splitNl]
      cases h : splitNl cs with
      | nil => simp
      | cons l ls => by_cases hc : c = '\n' <;> simp [hc]

theorem noNl_of_mem_splitNl (s : List Char) :
    ∀ l ∈ splitNl s, '\n' ∉ l := by
  induction s with
  | nil =>
      intro l hl
      simp [splitNl] at hl
      simp [hl]
  | cons c cs ih =>
      intro l hl
      simp only [splitNl] at hl
      cases h : splitNl cs with
      | nil => exact absurd h (splitNl_ne_nil cs)
      | cons p ps =>
          rw [h] at hl
          by_cases hc : c = '\n'
          · simp only [hc, if_true] at hl
            rcases List.mem_cons.mp hl with rfl | hl₂
            · simp
            · exact ih l (h ▸ hl₂)
          · simp only [hc, if_false] at hl
            rcases List.mem_cons.mp hl with rfl | hl₂
            · intro hmem
              rcases List.mem_cons.mp hmem with heq | hmem₂
              · exact hc heq.symm
              · exact ih p (h ▸ List.mem_cons_self _ _) hmem₂
            · exact ih l (h ▸ List.mem_cons_of_mem _ hl₂)

theorem joinNl_splitNl (s : List Char) : joinNl (splitNl s) = s := by
  induction s with
  | nil => rfl
  | cons c cs ih =>
      simp only [splitNl]
      cases h : splitNl cs with
      | nil => exact absurd h (splitNl_ne_nil cs)
      | cons p ps =>
          rw [h] at ih
          by_cases hc : c = '\n'
          · simp only [hc, if_true, joinNl, ih, List.nil_append]
          · simp only [hc, if_false]
            cases ps with
            | nil => simp only [joinNl] at ih ⊢; rw [ih]
            | cons p₂ ps₂ =>
                simp only [joinNl] at ih ⊢
                rw [List.cons_append, ih]

theorem splitNl_all_noNl (p : List Char) (hp : '\n' ∉ p) : splitNl p = [p] := by
  induction p with
  | nil => rfl
  | cons c cs ih =>
      have hc : c ≠ '\n' := fun hcc => hp (hcc ▸ List.mem_cons_self _ _)
      have hcs : '\n' ∉ cs := fun hmem => hp (List.mem_cons_of_mem _ hmem)
      simp only [splitNl, ih hcs, hc, if_false]

theorem splitNl_append_nl (p t : List Char) (hp : '\n' ∉ p) :
    splitNl (p ++ '\n' :: t) = p :: splitNl t := by
  induction p with
  | nil =>
      simp only [List.nil_append, splitNl]
      cases h : splitNl t with
      | nil => exact absurd h (splitNl_ne_nil t)
      | cons l ls => simp
  | cons c cs ih =>
      have hc : c ≠ '\n' := fun hcc => hp (hcc ▸ List.mem_cons_self _ _)
      have hcs : '\n' ∉ cs := fun hmem => hp (List.mem_cons_of_mem _ hmem)
      simp only [List.cons_append, splitNl]
      rw [show cs.append ('\n' :: t) = cs ++ '\n' :: t from rfl, ih hcs]
      simp [hc]

theorem splitNl_joinNl (ps : List (List Char)) (hne : ps ≠ [])
    (hnl : ∀ l ∈ ps, '\n' ∉ l) : splitNl (joinNl ps) = ps := by
  induction ps with
  | nil => exact absurd rfl hne
  | cons p rest ih =>
      cases rest with
      | nil =>
          simp only [joinNl]
          exact splitNl_all_noNl p (hnl p (List.mem_cons_self _ _))
      | cons p₂ rest₂ =>
          simp only [joinNl]
          rw [splitNl_append_nl p _ (hnl p (List.mem_cons_self _ _))]
          rw [ih (by simp) (fun l hl => hnl l (List.mem_cons_of_mem _ hl))]

/-! ## Claim C5: SSE outbound framing -/

/-- Claim C5: a payload written to the SSE outbound side is serialized
to text when not already textual, split on line breaks, and emitted as
one event whose body carries one `data: ` prefix per payload line (lines
joined by single line breaks) followed by the blank-line terminator;
stripping the six-character prefixes recovers exactly the payload lines.
A write attempted after the connection has ended fails with the
channel-closed error instead of succeeding. -/
theorem c5_sse_event_format (ended : Bool) (chunk : SsePayload) :
    (ended = false → ∃ body,
        sseWrite false chunk = Except.ok (body ++ ['\n', '\n']) ∧
        (splitNl body).map (fun l => l.take 6) =
          (splitNl (payloadText chunk)).map (fun _ => dataPfx) ∧
        (splitNl body).map (fun l => l.drop 6) = splitNl (payloadText chunk)) ∧
    (∀ v, chunk = SsePayload.value v → payloadText chunk = stringify v) ∧
    (ended = true →
        sseWrite true chunk = Except.error "Cannot write to closed SSE stream") := by
  have hsplit : splitNl (joinNl ((splitNl (payloadText chunk)).map
      (fun line => dataPfx ++ line))) =
      (splitNl (payloadText chunk)).map (fun line => dataPfx ++ line) := by
    apply splitNl_joinNl
    · simp [splitNl_ne_nil]
    · intro l hl
      obtain ⟨p, hp, rfl⟩ := List.mem_map.mp hl
      intro hmem
      rcases List.mem_append.mp hmem with hin | hin
      · simp [dataPfx] at hin
      · exact noNl_of_mem_splitNl (payloadText chunk) p hp hin
  refine ⟨?_, ?_, ?_⟩
  · intro _
    refine ⟨joinNl ((splitNl (payloadText chunk)).map (fun line => dataPfx ++ line)),
      rfl, ?_, ?_⟩
    · rw [hsplit, List.map_map]
      apply List.map_congr_left
      intro l _
      simp only [Function.comp_apply]
      exact List.take_left dataPfx l
    · rw [hsplit, List.map_map]
      have heach : ∀ l ∈ splitNl (payloadText chunk),
          ((fun l => List.drop 6 l) ∘ fun line => dataPfx ++ line) l = id l := by
        intro l _
        simp only [Function.comp_apply, id]
        exact List.drop_left dataPfx l
      rw [List.map_congr_left heach, List.map_id]
  · intro v hv
    rw [hv]
    rfl
  · intro _
    rfl

/-- Witness for C5: a two-line text payload is emitted as one event of
two `data: ` lines with the blank-line terminator, and the prefixes
strip back to the payload lines. -/
theorem c5_sse_event_format_witness :
    ∃ body,
      sseWrite false (SsePayload.text ['a', '\n', 'b']) =
        Except.ok (body ++ ['\n', '\n']) ∧
      (splitNl body).map (fun l => l.take 6) =
        (splitNl (payloadText (SsePayload.text ['a', '\n', 'b']))).map
          (fun _ => dataPfx) ∧
      (splitNl body).map (fun l => l.drop 6) =
        splitNl (payloadText (SsePayload.text ['a', '\n', 'b'])) :=
  (c5_sse_event_format false (SsePayload.text ['a', '\n', 'b'])).1 rfl

/-! ## Decimal digit lemmas -/

theorem digitVal_digitChar (d : Nat) (h : d < 10) : digitVal (digitChar d) = d := by
  interval_cases d <;> rfl

theorem isDigit_digitChar (d : Nat) (h : d < 10) : (digitChar d).isDigit = true := by
  interval_cases d <;> decide

theorem ofRevDigits_natDigitsAux :
    ∀ (f n : Nat), n ≤ f → ofRevDigits (natDigitsAux f n) = n := by
  intro f
  induction f with
  | zero => intro n hn; interval_cases n; rfl
  | succ k ih =>
      intro n hn
      by_cases h0 : n = 0
      · subst h0; rfl
      · simp only [natDigitsAux, h0, if_false, ofRevDigits]
        rw [ih (n / 10) (by omega), digitVal_digitChar (n % 10) (by omega)]
        omega

theorem isDigit_of_mem_natDigitsAux :
    ∀ (f n : Nat), ∀ c ∈ natDigitsAux f n, c.isDigit = true := by
  intro f
  induction f with
  | zero => intro n c hc; cases hc
  | succ k ih =>
      intro n c hc
      by_cases h0 : n = 0
      · subst h0; cases hc
      · simp only [natDigitsAux, h0, if_false] at hc
        rcases List.mem_cons.mp hc with rfl | hc₂
        · exact isDigit_digitChar (n % 10) (by omega)
        · exact ih (n / 10) c hc₂

theorem natDigits_ne_nil (n : Nat) : natDigits n ≠ [] := by
  unfold natDigits
  by_cases h0 : n = 0
  · simp [h0]
  · simp only [h0, if_false]
    obtain ⟨f, hf⟩ : ∃ f, n = f + 1 := ⟨n - 1, by omega⟩
    subst hf
    simp [natDigitsAux, Nat.succ_ne_zero]

theorem isDigit_of_mem_natDigits (n : Nat) : ∀ c ∈ natDigits n, c.isDigit = true := by
  unfold natDigits
  by_cases h0 : n = 0
  · simp only [h0, if_true]
    intro c hc
    rcases List.mem_cons.mp hc with rfl | hc₂
    · decide
    · cases hc₂
  · simp only [h0, if_false]
    intro c hc
    exact isDigit_of_mem_natDigitsAux n n c (List.mem_reverse.mp hc)

theorem foldl_digits_reverse (ds : List Char) :
    ds.reverse.foldl (fun acc c => acc * 10 + digitVal c) 0 = ofRevDigits ds := by
  induction ds with
  | nil => rfl
  | cons c cs ih =>
      simp only [List.reverse_cons, List.foldl_append, ih, ofRevDigits, List.foldl_cons,
        List.foldl_nil]
      omega

theorem digitsToNat_natDigits (n : Nat) :
    (natDigits n).foldl (fun acc c => acc * 10 + digitVal c) 0 = n := by
  unfold natDigits
  by_cases h0 : n = 0
  · subst h0; rfl
  · simp only [h0, if_false]
    rw [foldl_digits_reverse, ofRevDigits_natDigitsAux n n le_rfl]

theorem takeWhile_digits_append (ds rest : List Char)
    (hds : ∀ c ∈ ds, c.isDigit = true) (hrest : noDigitLead rest) :
    (ds ++ rest).takeWhile (fun c => c.isDigit) = ds ∧
    (ds ++ rest).dropWhile (fun c => c.isDigit) = rest := by
  induction ds with
  | nil =>
      simp only [List.nil_append]
      cases rest with
      | nil => simp
      | cons c cs =>
          have hc := hrest c cs rfl
          simp [List.takeWhile_cons, List.dropWhile_cons, hc]
  | cons d ds' ih =>
      have hd : d.isDigit = true := hds d (List.mem_cons_self _ _)
      have ih' := ih (fun c hc => hds c (List.mem_cons_of_mem _ hc))
      simp only [List.cons_append, List.takeWhile_cons, List.dropWhile_cons, hd, if_true,
        List.cons.injEq]
      simp [ih'.1, ih'.2]

theorem parseNatNum_natDigits (m : Nat) (rest : List Char) (hrest : noDigitLead rest) :
    parseNatNum (natDigits m ++ rest) = some (m, rest) := by
  obtain ⟨htake, hdrop⟩ :=
    takeWhile_digits_append (natDigits m) rest (isDigit_of_mem_natDigits m) hrest
  unfold parseNatNum
  rw [htake, hdrop]
  have hne : (natDigits m).isEmpty = false := by
    cases h : natDigits m with
    | nil => exact absurd h (natDigits_ne_nil m)
    | cons c cs => rfl
  simp [hne, digitsToNat_natDigits]

/-! ## Parser dispatch lemmas (one per leading character) -/

theorem parseVal_head_n (f : Nat) (cs : List Char) :
    parseVal (f + 1) ('n' :: cs) =
      match stripLit ['u', 'l', 'l'] cs with
      | none => none
      | some r => some (JVal.null, r) := rfl

theorem parseVal_head_t (f : Nat) (cs : List Char) :
    parseVal (f + 1) ('t' :: cs) =
      match stripLit ['r', 'u', 'e'] cs with
      | none => none
      | some r => some (JVal.boolean true, r) := rfl

theorem parseVal_head_f (f : Nat) (cs : List Char) :
    parseVal (f + 1) ('f' :: cs) =
      match stripLit ['a', 'l', 's', 'e'] cs with
      | none => none
      | some r => some (JVal.boolean false, r) := rfl

theorem parseVal_head_quote (f : Nat) (cs : List Char) :
    parseVal (f + 1) ('"' :: cs) =
      match parseStrBody cs with
      | none => none
      | some p => some (JVal.str p.1, p.2) := rfl

theorem parseVal_head_lbracket (f : Nat) (cs : List Char) :
    parseVal (f + 1) ('[' :: cs) =
      (if headIs cs ']' then some (JVal.arr [], cs.tail)
       else
        match parseElems f cs with
        | none => none
        | some p => some (JVal.arr p.1, p.2)) := rfl

theorem parseVal_head_lbrace (f : Nat) (cs : List Char) :
    parseVal (f + 1) ('\x7b' :: cs) =
      (if headIs cs '\x7d' then some (JVal.obj [], cs.tail)
       else
        match parseMembers f cs with
        | none => none
        | some p => some (JVal.obj p.1, p.2)) := rfl

theorem parseVal_head_minus (f : Nat) (cs : List Char) :
    parseVal (f + 1) ('-' :: cs) =
      match parseNatNum cs with
      | none => none
      | some p => some (JVal.num (-(p.1 : Int)), p.2) := rfl

theorem parseVal_head_digit (f : Nat) (c : Char) (cs : List Char)
    (hc : c.isDigit = true) :
    parseVal (f + 1) (c :: cs) =
      match parseNatNum (c :: cs) with
      | none => none
      | some p => some (JVal.num (p.1 : Int), p.2) := by
  have h₁ : c ≠ 'n' := fun h => by subst h; exact absurd hc (by decide)
  have h₂ : c ≠ 't' := fun h => by subst h; exact absurd hc (by decide)
  have h₃ : c ≠ 'f' := fun h => by subst h; exact absurd hc (by decide)
  have h₄ : c ≠ '"' := fun h => by subst h; exact absurd hc (by decide)
  have h₅ : c ≠ '[' := fun h => by subst h; exact absurd hc (by decide)
  have h₆ : c ≠ '\x7b' := fun h => by subst h; exact absurd hc (by decide)
  have h₇ : c ≠ '-' := fun h => by subst h; exact absurd hc (by decide)
  show (if c = 'n' then
          match stripLit ['u', 'l', 'l'] cs with
          | none => none
          | some r => some (JVal.null, r)
        else if c = 't' then
          match stripLit ['r', 'u', 'e'] cs with
          | none => none
          | some r => some (JVal.boolean true, r)
        else if c = 'f' then
          match stripLit ['a', 'l', 's', 'e'] cs with
          | none => none
          | some r => some (JVal.boolean false, r)
        else if c = '"' then
          match parseStrBody cs with
          | none => none
          | some p => some (JVal.str p.1, p.2)
        else if c = '[' then
          if headIs cs ']' then some (JVal.arr [], cs.tail)
          else
            match parseElems f cs with
            | none => none
            | some p => some (JVal.arr p.1, p.2)
        else if c = '\x7b' then
          if headIs cs '\x7d' then some (JVal.obj [], cs.tail)
          else
            match parseMembers f cs with
            | none => none
            | some p => some (JVal.obj p.1, p.2)
        else if c = '-' then
          match parseNatNum cs with
          | none => none
          | some p => some (JVal.num (-(p.1 : Int)), p.2)
        else if c.isDigit then
          match parseNatNum (c :: cs) with
          | none => none
          | some p => some (JVal.num (p.1 : Int), p.2)
        else none) = _
  rw [if_neg h₁, if_neg h₂, if_neg h₃, if_neg h₄, if_neg h₅, if_neg h₆, if_neg h₇,
    if_pos hc]

/-! ## Literal and string round-trip lemmas -/

theorem stripLit_append (lit : List Char) :
    ∀ rest, stripLit lit (lit ++ rest) = some rest := by
  induction lit with
  | nil => intro rest; rfl
  | cons a ls ih => intro rest; simp [stripLit, ih]

theorem parseStrB_escape (s : List Char) :
    ∀ rest, parseStrB false (escapeStr s ++ '"' :: rest) = some (s, rest) := by
  induction s with
  | nil =>
      intro rest
      show parseStrB false ('"' :: rest) = some ([], rest)
      rfl
  | cons c cs ih =>
      intro rest
      by_cases hc : c = '"' ∨ c = '\\'
      · have hesc : escChar c = ['\\', c] := by simp [escChar, hc]
        simp only [escapeStr, hesc, List.cons_append, List.append_assoc]
        show parseStrB false ('\\' :: c :: (escapeStr cs ++ '"' :: rest)) = some (c :: cs, rest)
        rw [show parseStrB false ('\\' :: c :: (escapeStr cs ++ '"' :: rest)) =
            (match parseStrB false (escapeStr cs ++ '"' :: rest) with
             | none => none
             | some p => some (c :: p.1, p.2)) from rfl]
        rw [ih rest]
      · have hesc : escChar c = [c] := by simp [escChar, hc]
        have hc₁ : c ≠ '\\' := fun h => hc (Or.inr h)
        have hc₂ : c ≠ '"' := fun h => hc (Or.inl h)
        simp only [escapeStr, hesc, List.cons_append, List.nil_append]
        show parseStrB false (c :: (escapeStr cs ++ '"' :: rest)) = some (c :: cs, rest)
        rw [show parseStrB false (c :: (escapeStr cs ++ '"' :: rest)) =
            (if c = '\\' then parseStrB true (escapeStr cs ++ '"' :: rest)
             else if c = '"' then some ([], escapeStr cs ++ '"' :: rest)
             else
              match parseStrB false (escapeStr cs ++ '"' :: rest) with
              | none => none
              | some p => some (c :: p.1, p.2)) from rfl]
        rw [if_neg hc₁, if_neg hc₂, ih rest]

theorem parseStrBody_escape (s : List Char) (rest : List Char) :
    parseStrBody (escapeStr s ++ '"' :: rest) = some (s, rest) :=
  parseStrB_escape s rest

/-! ## Leading-character facts about serialized values -/

theorem stringify_head (v : JVal) :
    ∃ c t, stringify v = c :: t ∧ startChar c = true := by
  cases v with
  | null => exact ⟨'n', _, rfl, rfl⟩
  | boolean b => cases b
                 · exact ⟨'f', _, rfl, rfl⟩
                 · exact ⟨'t', _, rfl, rfl⟩
  | num n =>
      show ∃ c t, stringifyInt n = c :: t ∧ startChar c = true
      unfold stringifyInt
      by_cases hn : n < 0
      · exact ⟨'-', _, by rw [if_pos hn], rfl⟩
      · rw [if_neg hn]
        cases h : natDigits n.toNat with
        | nil => exact absurd h (natDigits_ne_nil n.toNat)
        | cons c t =>
            refine ⟨c, t, rfl, ?_⟩
            have hd : c.isDigit = true :=
              isDigit_of_mem_natDigits n.toNat c (h ▸ List.mem_cons_self _ _)
            simp [startChar, hd]
  | str s => exact ⟨'"', _, rfl, rfl⟩
  | arr xs => exact ⟨'[', _, rfl, rfl⟩
  | obj kvs => exact ⟨'\x7b', _, rfl, rfl⟩

theorem headIs_false_of_startChar (c : Char) (t : List Char) (d : Char)
    (hc : startChar c = true) (hd : startChar d = false) :
    headIs (c :: t) d = false := by
  simp only [headIs, decide_eq_false_iff_not]
  intro h
  subst h
  rw [hc] at hd
  cases hd

theorem noDigitLead_cons (c : Char) (cs : List Char) (h : c.isDigit = false) :
    noDigitLead (c :: cs) := by
  intro c₂ cs₂ heq
  cases heq
  exact h

theorem noDigitLead_nil : noDigitLead [] := by
  intro c cs heq
  cases heq

/-- The serialization of a non-empty element list begins with the
serialization of its first element. -/
theorem stringifyElems_cons_shape (x : JVal) (xs : List JVal) :
    ∃ E, stringifyElems (x :: xs) = stringify x ++ E := by
  cases xs with
  | nil => exact ⟨[], by simp [stringifyElems]⟩
  | cons y ys => exact ⟨',' :: stringifyElems (y :: ys), by simp [stringifyElems]⟩

/-- The round trip for a non-empty comma-separated element list, given
the round trip for each element. -/
theorem parseElems_stringifyElems :
    ∀ (xs : List JVal) (x₀ : JVal),
      (∀ x ∈ x₀ :: xs, ∀ (fuel : Nat) (rest : List Char),
        (stringify x).length ≤ fuel → noDigitLead rest →
          parseVal fuel (stringify x ++ rest) = some (x, rest)) →
      ∀ (fuel : Nat) (rest : List Char),
        (stringifyElems (x₀ :: xs)).length + 1 ≤ fuel →
        parseElems fuel (stringifyElems (x₀ :: xs) ++ ']' :: rest) =
          some (x₀ :: xs, rest) := by
  intro xs
  induction xs with
  | nil =>
      intro x₀ HP fuel rest hfuel
      obtain ⟨f, rfl⟩ : ∃ f, fuel = f + 1 := ⟨fuel - 1, by omega⟩
      have hx : (stringify x₀).length ≤ f := by
        have : stringifyElems [x₀] = stringify x₀ := by simp [stringifyElems]
        rw [this] at hfuel
        omega
      have hval := HP x₀ (List.mem_cons_self _ _) f (']' :: rest) hx
        (noDigitLead_cons ']' rest (by decide))
      show parseElems (f + 1) (stringifyElems [x₀] ++ ']' :: rest) = some ([x₀], rest)
      rw [show stringifyElems [x₀] = stringify x₀ from by simp [stringifyElems]]
      rw [show parseElems (f + 1) (stringify x₀ ++ ']' :: rest) =
          (match parseVal f (stringify x₀ ++ ']' :: rest) with
           | none => none
           | some (v, rest₁) =>
               match rest₁ with
               | ',' :: rest₂ =>
                   match parseElems f rest₂ with
                   | none => none
                   | some (l, rest₃) => some (v :: l, rest₃)
               | ']' :: rest₂ => some ([v], rest₂)
               | _ => none) from rfl]
      rw [hval]
      rfl
  | cons y ys ih =>
      intro x₀ HP fuel rest hfuel
      obtain ⟨f, rfl⟩ : ∃ f, fuel = f + 1 := ⟨fuel - 1, by omega⟩
      have hlen : (stringifyElems (x₀ :: y :: ys)).length =
          (stringify x₀).length + 1 + (stringifyElems (y :: ys)).length := by
        simp [stringifyElems]
        omega
      have hx : (stringify x₀).length ≤ f := by omega
      have hval := HP x₀ (List.mem_cons_self _ _) f
        (',' :: (stringifyElems (y :: ys) ++ ']' :: rest)) hx
        (noDigitLead_cons ',' _ (by decide))
      have hrec := ih y (fun x hx₂ => HP x (List.mem_cons_of_mem _ hx₂)) f rest (by omega)
      show parseElems (f + 1) (stringifyElems (x₀ :: y :: ys) ++ ']' :: rest) =
        some (x₀ :: y :: ys, rest)
      rw [show stringifyElems (x₀ :: y :: ys) =
          stringify x₀ ++ ',' :: stringifyElems (y :: ys) from by simp [stringifyElems]]
      rw [show (stringify x₀ ++ ',' :: stringifyElems (y :: ys)) ++ ']' :: rest =
          stringify x₀ ++ ',' :: (stringifyElems (y :: ys) ++ ']' :: rest) from by
        simp [List.append_assoc]]
      rw [show parseElems (f + 1)
          (stringify x₀ ++ ',' :: (stringifyElems (y :: ys) ++ ']' :: rest)) =
          (match parseVal f
              (stringify x₀ ++ ',' :: (stringifyElems (y :: ys) ++ ']' :: rest)) with
           | none => none
           | some (v, rest₁) =>
               match rest₁ with
               | ',' :: rest₂ =>
                   match parseElems f rest₂ with
                   | none => none
                   | some (l, rest₃) => some (v :: l, rest₃)
               | ']' :: rest₂ => some ([v], rest₂)
               | _ => none) from rfl]
      rw [hval]
      simp only []
      rw [hrec]

/-- The serialization of a non-empty member list begins with the
serialized key string. -/
theorem stringifyMembers_cons_shape (k : List Char) (v : JVal)
    (kvs : List (List Char × JVal)) :
    ∃ E, stringifyMembers ((k, v) :: kvs) =
      '"' :: (escapeStr k ++ '"' :: ':' :: (stringify v ++ E)) := by
  cases kvs with
  | nil =>
      refine ⟨[], ?_⟩
      simp [stringifyMembers, stringifyStr, List.append_assoc]
  | cons m ms =>
      refine ⟨',' :: stringifyMembers (m :: ms), ?_⟩
      simp [stringifyMembers, stringifyStr, List.append_assoc]

/-- The round trip for a non-empty member list, given the round trip for
each member value. -/
theorem parseMembers_stringifyMembers :
    ∀ (kvs : List (List Char × JVal)) (k₀ : List Char) (v₀ : JVal),
      (∀ kv ∈ (k₀, v₀) :: kvs, ∀ (fuel : Nat) (rest : List Char),
        (stringify kv.2).length ≤ fuel → noDigitLead rest →
          parseVal fuel (stringify kv.2 ++ rest) = some (kv.2, rest)) →
      ∀ (fuel : Nat) (rest : List Char),
        (stringifyMembers ((k₀, v₀) :: kvs)).length + 1 ≤ fuel →
        parseMembers fuel (stringifyMembers ((k₀, v₀) :: kvs) ++ '\x7d' :: rest) =
          some ((k₀, v₀) :: kvs, rest) := by
  intro kvs
  induction kvs with
  | nil =>
      intro k₀ v₀ HP fuel rest hfuel
      obtain ⟨f, rfl⟩ : ∃ f, fuel = f + 1 := ⟨fuel - 1, by omega⟩
      have hlen : (stringifyMembers [(k₀, v₀)]).length =
          (stringifyStr k₀).length + 1 + (stringify v₀).length := by
        simp [stringifyMembers]
        omega
      have hx : (stringify v₀).length ≤ f := by omega
      have hval := HP (k₀, v₀) (List.mem_cons_self _ _) f ('\x7d' :: rest) hx
        (noDigitLead_cons '\x7d' rest (by decide))
      obtain ⟨E, hE⟩ := stringifyMembers_cons_shape k₀ v₀ []
      show parseMembers (f + 1) (stringifyMembers [(k₀, v₀)] ++ '\x7d' :: rest) =
        some ([(k₀, v₀)], rest)
      rw [hE]
      rw [show ('"' :: (escapeStr k₀ ++ '"' :: ':' :: (stringify v₀ ++ E))) ++ '\x7d' :: rest
          = '"' :: (escapeStr k₀ ++ '"' :: ':' :: (stringify v₀ ++ (E ++ '\x7d' :: rest)))
          from by simp [List.append_assoc]]
      rw [show parseMembers (f + 1)
          ('"' :: (escapeStr k₀ ++ '"' :: ':' :: (stringify v₀ ++ (E ++ '\x7d' :: rest)))) =
          (match parseStrBody (escapeStr k₀ ++ '"' :: ':' ::
              (stringify v₀ ++ (E ++ '\x7d' :: rest))) with
           | none => none
           | some (k, rest₁) =>
               match rest₁ with
               | ':' :: rest₂ =>
                   match parseVal f rest₂ with
                   | none => none
                   | some (v, rest₃) =>
                       match rest₃ with
                       | ',' :: rest₄ =>
                           match parseMembers f rest₄ with
                           | none => none
                           | some (l, rest₅) => some ((k, v) :: l, rest₅)
                       | '\x7d' :: rest₄ => some ([(k, v)], rest₄)
                       | _ => none
               | _ => none) from rfl]
      rw [parseStrBody_escape k₀ (':' :: (stringify v₀ ++ (E ++ '\x7d' :: rest)))]
      simp only []
      have hE0 : E = [] := by
        have h₁ : stringifyMembers [(k₀, v₀)] =
            stringifyStr k₀ ++ ':' :: stringify v₀ := by simp [stringifyMembers]
        rw [h₁] at hE
        simp [stringifyStr, List.append_assoc] at hE
        exact hE
      rw [hE0]
      simp only [List.nil_append]
      rw [hval]
      rfl
  | cons m ms ih =>
      intro k₀ v₀ HP fuel rest hfuel
      obtain ⟨mk, mv⟩ := m
      obtain ⟨f, rfl⟩ : ∃ f, fuel = f + 1 := ⟨fuel - 1, by omega⟩
      have hlen : (stringifyMembers ((k₀, v₀) :: (mk, mv) :: ms)).length =
          (stringifyStr k₀).length + 1 + (stringify v₀).length + 1 +
            (stringifyMembers ((mk, mv) :: ms)).length := by
        simp [stringifyMembers]
        omega
      have hx : (stringify v₀).length ≤ f := by omega
      have hval := HP (k₀, v₀) (List.mem_cons_self _ _) f
        (',' :: (stringifyMembers ((mk, mv) :: ms) ++ '\x7d' :: rest)) hx
        (noDigitLead_cons ',' _ (by decide))
      have hrec := ih mk mv
        (fun kv hkv => HP kv (by
          rcases List.mem_cons.mp hkv with rfl | hkv₂
          · exact List.mem_cons_of_mem _ (List.mem_cons_self _ _)
          · exact List.mem_cons_of_mem _ (List.mem_cons_of_mem _ hkv₂)))
        f rest (by omega)
      obtain ⟨E, hE⟩ := stringifyMembers_cons_shape k₀ v₀ ((mk, mv) :: ms)
      have hEval : E = ',' :: stringifyMembers ((mk, mv) :: ms) := by
        have h₁ : stringifyMembers ((k₀, v₀) :: (mk, mv) :: ms) =
            stringifyStr k₀ ++ ':' :: stringify v₀ ++ ',' :: stringifyMembers ((mk, mv) :: ms) := by
          simp [stringifyMembers]
        rw [h₁] at hE
        simp [stringifyStr, List.append_assoc] at hE
        exact hE.symm
      show parseMembers (f + 1)
          (stringifyMembers ((k₀, v₀) :: (mk, mv) :: ms) ++ '\x7d' :: rest) =
        some ((k₀, v₀) :: (mk, mv) :: ms, rest)
      rw [hE, hEval]
      rw [show ('"' :: (escapeStr k₀ ++ '"' :: ':' ::
            (stringify v₀ ++ ',' :: stringifyMembers ((mk, mv) :: ms)))) ++ '\x7d' :: rest =
          '"' :: (escapeStr k₀ ++ '"' :: ':' ::
            (stringify v₀ ++ (',' :: (stringifyMembers ((mk, mv) :: ms) ++ '\x7d' :: rest))))
          from by simp [List.append_assoc]]
      rw [show parseMembers (f + 1)
          ('"' :: (escapeStr k₀ ++ '"' :: ':' ::
            (stringify v₀ ++ (',' :: (stringifyMembers ((mk, mv) :: ms) ++ '\x7d' :: rest))))) =
          (match parseStrBody (escapeStr k₀ ++ '"' :: ':' ::
              (stringify v₀ ++ (',' :: (stringifyMembers ((mk, mv) :: ms) ++ '\x7d' :: rest)))) with
           | none => none
           | some (k, rest₁) =>
               match rest₁ with
               | ':' :: rest₂ =>
                   match parseVal f rest₂ with
                   | none => none
                   | some (v, rest₃) =>
                       match rest₃ with
                       | ',' :: rest₄ =>
                           match parseMembers f rest₄ with
                           | none => none
                           | some (l, rest₅) => some ((k, v) :: l, rest₅)
                       | '\x7d' :: rest₄ => some ([(k, v)], rest₄)
                       | _ => none
               | _ => none) from rfl]
      rw [parseStrBody_escape k₀]
      simp only []
      rw [hval]
      simp only []
      rw [hrec]

/-- The integer serialization is never empty. -/
theorem stringifyInt_ne_nil (n : Int) : stringifyInt n ≠ [] := by
  unfold stringifyInt
  by_cases hn : n < 0
  · simp [hn]
  · simp only [hn, if_false]
    exact natDigits_ne_nil n.toNat

/-- The parser inverts the serializer: with fuel at least the length of
the serialized value and a remainder that does not begin with a digit,
`parseVal` consumes exactly the serialization and returns the value. -/
theorem parseVal_stringify_aux :
    ∀ (N : Nat) (v : JVal), sizeOf v ≤ N →
      ∀ (fuel : Nat) (rest : List Char),
        (stringify v).length ≤ fuel → noDigitLead rest →
          parseVal fuel (stringify v ++ rest) = some (v, rest) := by
  intro N
  induction N with
  | zero =>
      intro v hv
      exfalso
      cases v <;> simp at hv
  | succ k ih =>
      intro v hv fuel rest hfuel hrest
      cases v with
      | null =>
          obtain ⟨f, rfl⟩ : ∃ f, fuel = f + 1 := ⟨fuel - 1, by
            have h4 : (stringify JVal.null).length = 4 := rfl
            omega⟩
          show parseVal (f + 1) ('n' :: 'u' :: 'l' :: 'l' :: rest) = some (JVal.null, rest)
          rfl
      | boolean b =>
          cases b
          · obtain ⟨f, rfl⟩ : ∃ f, fuel = f + 1 := ⟨fuel - 1, by
              have h5 : (stringify (JVal.boolean false)).length = 5 := rfl
              omega⟩
            show parseVal (f + 1) ('f' :: 'a' :: 'l' :: 's' :: 'e' :: rest) =
              some (JVal.boolean false, rest)
            rfl
          · obtain ⟨f, rfl⟩ : ∃ f, fuel = f + 1 := ⟨fuel - 1, by
              have h4 : (stringify (JVal.boolean true)).length = 4 := rfl
              omega⟩
            show parseVal (f + 1) ('t' :: 'r' :: 'u' :: 'e' :: rest) =
              some (JVal.boolean true, rest)
            rfl
      | num n =>
          have hpos : 1 ≤ (stringify (JVal.num n)).length := by
            have hne : stringify (JVal.num n) ≠ [] := stringifyInt_ne_nil n
            cases h : stringify (JVal.num n) with
            | nil => exact absurd h hne
            | cons c t => simp [h]
          obtain ⟨f, rfl⟩ : ∃ f, fuel = f + 1 := ⟨fuel - 1, by omega⟩
          by_cases hn : n < 0
          · have hs : stringify (JVal.num n) = '-' :: natDigits n.natAbs := by
              show stringifyInt n = _
              unfold stringifyInt
              rw [if_pos hn]
            rw [hs, List.cons_append, parseVal_head_minus,
              parseNatNum_natDigits _ _ hrest]
            have hval : -((n.natAbs : Int)) = n := by omega
            simp only []
            rw [hval]
          · have hs : stringify (JVal.num n) = natDigits n.toNat := by
              show stringifyInt n = _
              unfold stringifyInt
              rw [if_neg hn]
            cases hnd : natDigits n.toNat with
            | nil => exact absurd hnd (natDigits_ne_nil _)
            | cons c t =>
                have hc : c.isDigit = true :=
                  isDigit_of_mem_natDigits n.toNat c (hnd ▸ List.mem_cons_self _ _)
                rw [hs, hnd, List.cons_append, parseVal_head_digit f c _ hc]
                rw [show c :: (t ++ rest) = (c :: t) ++ rest from rfl, ← hnd,
                  parseNatNum_natDigits _ _ hrest]
                have hval : ((n.toNat : Int)) = n := Int.toNat_of_nonneg (by omega)
                simp only []
                rw [hval]
      | str s =>
          obtain ⟨f, rfl⟩ : ∃ f, fuel = f + 1 := ⟨fuel - 1, by
            have h1 : (stringify (JVal.str s)).length = (escapeStr s).length + 2 := by
              show (stringifyStr s).length = _
              simp [stringifyStr]
            omega⟩
          have hs : stringify (JVal.str s) ++ rest = '"' :: (escapeStr s ++ '"' :: rest) := by
            show stringifyStr s ++ rest = _
            simp [stringifyStr, List.append_assoc]
          rw [hs, parseVal_head_quote, parseStrBody_escape s rest]
      | arr xs =>
          cases xs with
          | nil =>
              obtain ⟨f, rfl⟩ : ∃ f, fuel = f + 1 := ⟨fuel - 1, by
                have h2 : (stringify (JVal.arr [])).length = 2 := rfl
                omega⟩
              show parseVal (f + 1) ('[' :: ']' :: rest) = some (JVal.arr [], rest)
              rfl
          | cons x xs₂ =>
              have HP : ∀ x₂ ∈ x :: xs₂, ∀ (fuel₂ : Nat) (rest₂ : List Char),
                  (stringify x₂).length ≤ fuel₂ → noDigitLead rest₂ →
                    parseVal fuel₂ (stringify x₂ ++ rest₂) = some (x₂, rest₂) := by
                intro x₂ hx₂
                have h₁ := List.sizeOf_lt_of_mem hx₂
                have h₂ : sizeOf (JVal.arr (x :: xs₂)) = 1 + sizeOf (x :: xs₂) := by simp
                exact ih x₂ (by omega)
              have hslen : (stringify (JVal.arr (x :: xs₂))).length =
                  (stringifyElems (x :: xs₂)).length + 2 := by
                show ('[' :: stringifyElems (x :: xs₂) ++ [']']).length = _
                simp
              obtain ⟨f, rfl⟩ : ∃ f, fuel = f + 1 := ⟨fuel - 1, by omega⟩
              have hshape : stringify (JVal.arr (x :: xs₂)) ++ rest =
                  '[' :: (stringifyElems (x :: xs₂) ++ ']' :: rest) := by
                show ('[' :: stringifyElems (x :: xs₂) ++ [']']) ++ rest = _
                simp [List.append_assoc]
              rw [hshape, parseVal_head_lbracket]
              obtain ⟨c, t, hct, hcs⟩ := stringify_head x
              obtain ⟨E, hE⟩ := stringifyElems_cons_shape x xs₂
              have hhead : headIs (stringifyElems (x :: xs₂) ++ ']' :: rest) ']' = false := by
                rw [hE, hct]
                rw [show ((c :: t) ++ E) ++ ']' :: rest =
                  c :: ((t ++ E) ++ ']' :: rest) from by simp]
                exact headIs_false_of_startChar c _ ']' hcs (by decide)
              rw [hhead]
              simp only [Bool.false_eq_true, if_false]
              rw [parseElems_stringifyElems xs₂ x HP f rest (by omega)]
      | obj kvs =>
          cases kvs with
          | nil =>
              obtain ⟨f, rfl⟩ : ∃ f, fuel = f + 1 := ⟨fuel - 1, by
                have h2 : (stringify (JVal.obj [])).length = 2 := rfl
                omega⟩
              show parseVal (f + 1) ('\x7b' :: '\x7d' :: rest) = some (JVal.obj [], rest)
              rfl
          | cons kv kvs₂ =>
              obtain ⟨k₁, v₁⟩ := kv
              have HP : ∀ kv₂ ∈ (k₁, v₁) :: kvs₂, ∀ (fuel₂ : Nat) (rest₂ : List Char),
                  (stringify kv₂.2).length ≤ fuel₂ → noDigitLead rest₂ →
                    parseVal fuel₂ (stringify kv₂.2 ++ rest₂) = some (kv₂.2, rest₂) := by
                intro kv₂ hkv₂
                have h₁ := List.sizeOf_lt_of_mem hkv₂
                obtain ⟨a, b⟩ := kv₂
                have h₂ : sizeOf (JVal.obj ((k₁, v₁) :: kvs₂)) =
                    1 + sizeOf ((k₁, v₁) :: kvs₂) := by simp
                have h₃ : sizeOf ((a, b) : List Char × JVal) = 1 + sizeOf a + sizeOf b := by
                  simp
                exact ih b (by omega)
              have hslen : (stringify (JVal.obj ((k₁, v₁) :: kvs₂))).length =
                  (stringifyMembers ((k₁, v₁) :: kvs₂)).length + 2 := by
                show ('\x7b' :: stringifyMembers ((k₁, v₁) :: kvs₂) ++ ['\x7d']).length = _
                simp
              obtain ⟨f, rfl⟩ : ∃ f, fuel = f + 1 := ⟨fuel - 1, by omega⟩
              have hshape : stringify (JVal.obj ((k₁, v₁) :: kvs₂)) ++ rest =
                  '\x7b' :: (stringifyMembers ((k₁, v₁) :: kvs₂) ++ '\x7d' :: rest) := by
                show ('\x7b' :: stringifyMembers ((k₁, v₁) :: kvs₂) ++ ['\x7d']) ++ rest = _
                simp [List.append_assoc]
              rw [hshape, parseVal_head_lbrace]
              obtain ⟨E, hE⟩ := stringifyMembers_cons_shape k₁ v₁ kvs₂
              have hhead : headIs (stringifyMembers ((k₁, v₁) :: kvs₂) ++ '\x7d' :: rest)
                  '\x7d' = false := by
                rw [hE]
                rw [show ('"' :: (escapeStr k₁ ++ '"' :: ':' :: (stringify v₁ ++ E))) ++
                    '\x7d' :: rest =
                  '"' :: ((escapeStr k₁ ++ '"' :: ':' :: (stringify v₁ ++ E)) ++
                    '\x7d' :: rest) from by simp]
                exact headIs_false_of_startChar '"' _ '\x7d' rfl (by decide)
              rw [hhead]
              simp only [Bool.false_eq_true, if_false]
              rw [parseMembers_stringifyMembers kvs₂ k₁ v₁ HP f rest (by omega)]

/-- `JSON.parse` inverts `JSON.stringify` on every JSON value. -/
theorem parseJson_stringify (v : JVal) : parseJson (stringify v) = some v := by
  unfold parseJson
  have h := parseVal_stringify_aux (sizeOf v) v le_rfl (stringify v).length []
    le_rfl noDigitLead_nil
  rw [List.append_nil] at h
  rw [h]

/-! ## Claim C10: LocalAuthClient credential round trip -/

/-- Claim C10: for every serviceName, userId and JSON-serializable
credentials object without a `toJSON` method, `getUserCredentials`
invoked after `saveUserCredentials` on the same pair returns an object
structurally equal to the saved credentials (the `JSON.parse` of their
`JSON.stringify`); and `getUserCredentials` returns `null` when no
credentials file exists for that pair. -/
theorem c10_local_credentials_roundtrip :
    (∀ (fs : FileSys) (serviceName userId : String) (credentials : JVal),
        getUserCredentials (saveUserCredentials fs serviceName userId credentials)
          serviceName userId = Except.ok (some credentials)) ∧
    (∀ (fs : FileSys) (serviceName userId : String),
        fs (credsPath serviceName userId) = none →
        getUserCredentials fs serviceName userId = Except.ok none) := by
  constructor
  · intro fs serviceName userId credentials
    unfold getUserCredentials saveUserCredentials
    rw [if_pos rfl]
    simp only []
    rw [parseJson_stringify]
  · intro fs serviceName userId h
    unfold getUserCredentials
    rw [h]

/-- Witness for C10: the empty filesystem holds no credentials file, so
the lookup returns `null`; and a concrete save/get round trip returns
the saved object. -/
theorem c10_local_credentials_roundtrip_witness :
    getUserCredentials (fun _ => none) "gcalendar" "local" = Except.ok none ∧
    getUserCredentials
        (saveUserCredentials (fun _ => none) "gcalendar" "local"
          (JVal.obj [("access_token".toList, JVal.str "abc123".toList),
                     ("expiry_date".toList, JVal.num 1700000000)]))
        "gcalendar" "local" =
      Except.ok (some (JVal.obj [("access_token".toList, JVal.str "abc123".toList),
                     ("expiry_date".toList, JVal.num 1700000000)])) :=
  ⟨c10_local_credentials_roundtrip.2 (fun _ => none) "gcalendar" "local" rfl,
   c10_local_credentials_roundtrip.1 (fun _ => none) "gcalendar" "local" _⟩

end GuMCP
